import Mathlib

/-!
Verification development for the transcript-analysis engine
(`transcript_processor.py`): a rule-based extraction pipeline that turns
meeting transcripts into structured action items, decisions, participants,
a meeting date, and a summary.

The Python regular expressions are embedded as hand-specialized matching
functions over `List Char`, reproducing the semantics of the Python `re`
module (leftmost search, greedy quantifiers with backtracking, ASCII
case-insensitive matching where the `re.IGNORECASE` flag is set).
`strptime`/`strftime` for the five date formats used by `_normalize_date`
are modelled including calendar validation.
-/

/-- Python `\s` for the ASCII range: space, tab, newline, CR, VT, FF. -/
def isPySpace (c : Char) : Bool :=
  c = ' ' || c = '\t' || c = '\n' || c = '\r' || c = Char.ofNat 11 || c = Char.ofNat 12

/-- Python `\w` for the ASCII range: letters, digits, underscore. -/
def isWordChar (c : Char) : Bool :=
  c.isAlphanum || c = '_'

/-- The character class `[^\.\n]` used by every action/decision capture group. -/
def notPN (c : Char) : Bool :=
  !(c = '.' || c = '\n')

/-- ASCII letters, the class `[A-Za-z]` of the due-date regex. -/
def isAsciiLetter (c : Char) : Bool :=
  c.isAlpha

/-- Boundary `\b` holding at a position whose NEXT character is a word character:
the previous character must be absent (start of string) or a non-word char. -/
def boundaryBefore (prev : Option Char) : Bool :=
  match prev with
  | none => true
  | some c => !isWordChar c

/-- Boundary `\b` holding at a position whose PREVIOUS character is a word character:
the next character must be absent (end of string) or a non-word char. -/
def boundaryAfter (cs : List Char) : Bool :=
  match cs with
  | [] => true
  | c :: _ => !isWordChar c

/-- Case-insensitive literal match (pattern given in lowercase); returns the rest. -/
def matchCI : List Char → List Char → Option (List Char)
  | [], cs => some cs
  | _ :: _, [] => none
  | p :: ps, c :: cs => if c.toLower = p then matchCI ps cs else none

/-- Python `str.strip()` from the left. -/
def stripL (cs : List Char) : List Char :=
  cs.dropWhile isPySpace

/-- Remove trailing whitespace. -/
def trimRight (cs : List Char) : List Char :=
  (cs.reverse.dropWhile isPySpace).reverse

/-- Python `str.strip()` on a char list. -/
def pyStrip (cs : List Char) : List Char :=
  trimRight (cs.dropWhile isPySpace)

/-- Model of `re.sub(r"\s+", " ", ·)`: collapse every whitespace run to one space. -/
def collapseWs : List Char → List Char
  | [] => []
  | c :: rest =>
    if isPySpace c then
      match collapseWs rest with
      | ' ' :: ds => ' ' :: ds
      | l => ' ' :: l
    else c :: collapseWs rest

/-- Python `str.rstrip(";,. ")`. -/
def rstripPunct (cs : List Char) : List Char :=
  (cs.reverse.dropWhile (fun c => c = ';' || c = ',' || c = '.' || c = ' ')).reverse

/-- Model of `_clean_task`: whitespace normalization, strip, then `rstrip(";,. ")`. -/
def clean_task (cs : List Char) : List Char :=
  rstripPunct (pyStrip (collapseWs cs))

/-- Generic `re.search` driver: try the position matcher `m` at every start
position, left to right (the previous character is threaded for `\b`). -/
def searchGo (m : Option Char → List Char → Option α) (prev : Option Char) :
    List Char → Option α
  | [] => m prev []
  | c :: rest =>
    match m prev (c :: rest) with
    | some r => some r
    | none => searchGo m (some c) rest

/-- Model of `re.search` from the start of the string. -/
def reSearch (m : Option Char → List Char → Option α) (cs : List Char) : Option α :=
  searchGo m none cs

/-- Capture for `([^\.\n]+)`: the greedy nonempty run of non-period non-newline
characters at the current position. -/
def capFrom (cs : List Char) : Option (List Char) :=
  if (cs.takeWhile notPN).isEmpty then none else some (cs.takeWhile notPN)

/-- Backtracking loop for `\s+([^\.\n]+)`: `j` whitespace characters are
consumed (greedy, largest first, at least one) and the capture starts after
them. -/
def wsCapLoop (cs : List Char) : Nat → Option (List Char)
  | 0 => none
  | j + 1 =>
    match capFrom (cs.drop (j + 1)) with
    | some r => some r
    | none => wsCapLoop cs j

/-- Pattern tail `\s+([^\.\n]+)` at the current position. -/
def wsPlusCap (cs : List Char) : Option (List Char) :=
  wsCapLoop cs (cs.takeWhile isPySpace).length

/-- Backtracking loop for `\s*([^\.\n]+)` (zero consumed whitespace allowed). -/
def wsCapLoop0 (cs : List Char) : Nat → Option (List Char)
  | 0 => capFrom cs
  | j + 1 =>
    match capFrom (cs.drop (j + 1)) with
    | some r => some r
    | none => wsCapLoop0 cs j

/-- Pattern tail `\s*([^\.\n]+)` at the current position. -/
def wsStarCap (cs : List Char) : Option (List Char) :=
  wsCapLoop0 cs (cs.takeWhile isPySpace).length

/-- Pattern piece `\s+` followed by a continuation that starts with a non-whitespace
literal: the maximal run is consumed (backtracking cannot help because the
continuation rejects a leading whitespace character). -/
def wsPlusThen (cs : List Char) (k : List Char → Option α) : Option α :=
  if (cs.takeWhile isPySpace).length = 0 then none
  else k (cs.drop (cs.takeWhile isPySpace).length)

/-- Pattern piece `\s*` followed by a continuation that starts with a non-whitespace literal. -/
def wsStarThen (cs : List Char) (k : List Char → Option α) : Option α :=
  k (cs.dropWhile isPySpace)

/-- Pattern piece `(?:'|’)?`: optional apostrophe, greedy (with-branch first). -/
def apoOpt (cs : List Char) (k : List Char → Option α) : Option α :=
  match cs with
  | c :: rest =>
    if c = '\'' || c = '’' then
      match k rest with
      | some r => some r
      | none => k cs
    else k cs
  | [] => k cs

/-- Capture for `(.+)$` (no DOTALL): greedy run of non-newline characters,
nonempty, ending at the end of the string or just before a final newline. -/
def dotPlusDollar (cs : List Char) : Option (List Char) :=
  match cs with
  | [] => none
  | _ =>
    if (cs.drop (cs.takeWhile (fun c => !(c = '\n'))).length).isEmpty then
      some (cs.takeWhile (fun c => !(c = '\n')))
    else if cs.drop (cs.takeWhile (fun c => !(c = '\n'))).length = [ '\n' ]
        && !(cs.takeWhile (fun c => !(c = '\n'))).isEmpty then
      some (cs.takeWhile (fun c => !(c = '\n')))
    else none

/-- Backtracking loop for the `\s*(.+)$` tail of `SPEAKER_RE` after the colon. -/
def colonTailLoop (cs : List Char) : Nat → Option (List Char)
  | 0 => dotPlusDollar cs
  | j + 1 =>
    match dotPlusDollar (cs.drop (j + 1)) with
    | some r => some r
    | none => colonTailLoop cs j

/-- Pattern tail `\s*(.+)$` after the colon of `SPEAKER_RE`. -/
def colonTail (cs : List Char) : Option (List Char) :=
  colonTailLoop cs (cs.takeWhile isPySpace).length

/-- The character class `[\w .'-]` of `SPEAKER_RE`. -/
def nameChar (c : Char) : Bool :=
  isWordChar c || c = ' ' || c = '.' || c = '\'' || c = '-'

/-- Backtracking over the `{1,50}` quantifier of `SPEAKER_RE`: try taking
`k` name characters after the initial capital (greedy, largest first,
at least one), then `\s*:\s*(.+)$`. -/
def speakerKLoop (c0 : Char) (rest : List Char) : Nat → Option (List Char × List Char)
  | 0 => none
  | k + 1 =>
    match (rest.drop (k + 1)).dropWhile isPySpace with
    | c :: t3 =>
      if c = ':' then
        match colonTail t3 with
        | some cap => some (c0 :: rest.take (k + 1), cap)
        | none => speakerKLoop c0 rest k
      else speakerKLoop c0 rest k
    | [] => speakerKLoop c0 rest k

/-- Model of `SPEAKER_RE.match(line)` for `^\s*([A-Z][\w .'-]{1,50})\s*:\s*(.+)$`:
returns `(group 1, group 2)`. -/
def speakerMatch (line : List Char) : Option (List Char × List Char) :=
  match line.dropWhile isPySpace with
  | c :: rest =>
    if c.isUpper then
      speakerKLoop c rest (min 50 (rest.takeWhile nameChar).length)
    else none
  | [] => none

example : speakerMatch ("Jane: hi there.").data =
    some (("Jane").data, ("hi there.").data) := by decide

example : speakerMatch ("A: hello").data = none := by decide

example : speakerMatch ("Participants: Alice, Bob and Carol").data =
    some (("Participants").data, ("Alice, Bob and Carol").data) := by decide

/-- Capture for the `(.+)` of `PARTICIPANTS_RE` (no anchor): greedy nonempty
run of non-newline characters. -/
def capNoNL (cs : List Char) : Option (List Char) :=
  if (cs.takeWhile (fun c => !(c = '\n'))).isEmpty then none
  else some (cs.takeWhile (fun c => !(c = '\n')))

/-- Backtracking loop for `\s*(.+)` of `PARTICIPANTS_RE`. -/
def wsCapNLLoop (cs : List Char) : Nat → Option (List Char)
  | 0 => capNoNL cs
  | j + 1 =>
    match capNoNL (cs.drop (j + 1)) with
    | some r => some r
    | none => wsCapNLLoop cs j

/-- Pattern piece `(?:s|S)?` of `Participants?` (IGNORECASE), greedy. -/
def sOpt (cs : List Char) (k : List Char → Option α) : Option α :=
  match cs with
  | c :: rest =>
    if c.toLower = 's' then
      match k rest with
      | some r => some r
      | none => k cs
    else k cs
  | [] => k cs

/-- Position matcher for `PARTICIPANTS_RE = \bParticipants?\s*:\s*(.+)`
(IGNORECASE); returns group 1. -/
def patParticipantsLabel (prev : Option Char) (cs : List Char) : Option (List Char) :=
  if !boundaryBefore prev then none else
  match matchCI [ 'p', 'a', 'r', 't', 'i', 'c', 'i', 'p', 'a', 'n', 't' ] cs with
  | none => none
  | some t =>
    sOpt t fun t2 =>
      wsStarThen t2 fun t3 =>
        match t3 with
        | ':' :: t4 => wsCapNLLoop t4 (t4.takeWhile isPySpace).length
        | _ => none

/-- Model of `re.split(r",|;|\band\b", s)`: left-to-right scan, splitting on comma,
semicolon, or the (case-sensitive) word `and`; `acc` is the reversed current
fragment. -/
def splitNames (prev : Option Char) (acc : List Char) : List Char → List (List Char)
  | [] => [acc.reverse]
  | 'a' :: 'n' :: 'd' :: rest =>
    if boundaryBefore prev && boundaryAfter rest then
      acc.reverse :: splitNames (some 'd') [] rest
    else
      splitNames (some 'a') ('a' :: acc) ('n' :: 'd' :: rest)
  | c :: rest =>
    if c = ',' || c = ';' then
      acc.reverse :: splitNames (some c) [] rest
    else
      splitNames (some c) (c :: acc) rest

example : splitNames none [] ("Alice, Bob and Carol").data =
    [ ("Alice").data, (" Bob ").data, (" Carol").data ] := by decide

/-- Position matcher for `ACTION_PATTERNS[0] = \bI(?:'|’)?ll\s+([^\.\n]+)`
(IGNORECASE). -/
def patIll (prev : Option Char) (cs : List Char) : Option (List Char) :=
  if !boundaryBefore prev then none else
  match cs with
  | c :: rest =>
    if c.toLower = 'i' then
      apoOpt rest fun t => (matchCI [ 'l', 'l' ] t).bind wsPlusCap
    else none
  | [] => none

/-- Position matcher for `ACTION_PATTERNS[1] = \bI(?:'|’)?m\s+going\s+to\s+([^\.\n]+)`
(IGNORECASE). -/
def patImGoing (prev : Option Char) (cs : List Char) : Option (List Char) :=
  if !boundaryBefore prev then none else
  match cs with
  | c :: rest =>
    if c.toLower = 'i' then
      apoOpt rest fun t =>
        (matchCI [ 'm' ] t).bind fun t2 =>
          wsPlusThen t2 fun t3 =>
            (matchCI [ 'g', 'o', 'i', 'n', 'g' ] t3).bind fun t4 =>
              wsPlusThen t4 fun t5 =>
                (matchCI [ 't', 'o' ] t5).bind wsPlusCap
    else none
  | [] => none

/-- Position matcher for `ACTION_PATTERNS[2] = \bI\s+will\s+([^\.\n]+)`
(IGNORECASE). -/
def patIWill (prev : Option Char) (cs : List Char) : Option (List Char) :=
  if !boundaryBefore prev then none else
  match cs with
  | c :: rest =>
    if c.toLower = 'i' then
      wsPlusThen rest fun t =>
        (matchCI [ 'w', 'i', 'l', 'l' ] t).bind wsPlusCap
    else none
  | [] => none

/-- Position matcher for `ACTION_PATTERNS[3] = \bYou\s+should\s+([^\.\n]+)`
(IGNORECASE). -/
def patYouShould (prev : Option Char) (cs : List Char) : Option (List Char) :=
  if !boundaryBefore prev then none else
  (matchCI [ 'y', 'o', 'u' ] cs).bind fun t =>
    wsPlusThen t fun t2 =>
      (matchCI [ 's', 'h', 'o', 'u', 'l', 'd' ] t2).bind wsPlusCap

/-- Position matcher for `ACTION_PATTERNS[4] = \bWe\s+should\s+([^\.\n]+)`
(IGNORECASE). -/
def patWeShould (prev : Option Char) (cs : List Char) : Option (List Char) :=
  if !boundaryBefore prev then none else
  (matchCI [ 'w', 'e' ] cs).bind fun t =>
    wsPlusThen t fun t2 =>
      (matchCI [ 's', 'h', 'o', 'u', 'l', 'd' ] t2).bind wsPlusCap

/-- Position matcher for `ACTION_PATTERNS[5] = \bLet(?:'|’)?s\s+([^\.\n]+)`
(IGNORECASE). -/
def patLets (prev : Option Char) (cs : List Char) : Option (List Char) :=
  if !boundaryBefore prev then none else
  (matchCI [ 'l', 'e', 't' ] cs).bind fun t =>
    apoOpt t fun t2 =>
      (matchCI [ 's' ] t2).bind wsPlusCap

/-- Position matcher for `ACTION_PATTERNS[6] = \bAction\s*:\s*([^\.\n]+)`
(IGNORECASE). -/
def patActionLabel (prev : Option Char) (cs : List Char) : Option (List Char) :=
  if !boundaryBefore prev then none else
  (matchCI [ 'a', 'c', 't', 'i', 'o', 'n' ] cs).bind fun t =>
    wsStarThen t fun t2 =>
      match t2 with
      | ':' :: t3 => wsStarCap t3
      | _ => none

/-- The ordered `ACTION_PATTERNS` table, as position matchers. -/
def actionMatchers : List (Option Char → List Char → Option (List Char)) :=
  [ patIll, patImGoing, patIWill, patYouShould, patWeShould, patLets, patActionLabel ]

/-- Backtracking tail of `DECISION_PATTERNS[0]` after `decided`:
`\s+(?:to\s+)?([^\.\n]+)` with the optional `to\s+` tried first. -/
def decidedLoop (cs : List Char) : Nat → Option (List Char)
  | 0 => none
  | j + 1 =>
    match (matchCI [ 't', 'o' ] (cs.drop (j + 1))).bind wsPlusCap with
    | some r => some r
    | none =>
      match capFrom (cs.drop (j + 1)) with
      | some r => some r
      | none => decidedLoop cs j

/-- Position matcher for `DECISION_PATTERNS[0] = \bWe\s+decided\s+(?:to\s+)?([^\.\n]+)`
(IGNORECASE). -/
def patWeDecided (prev : Option Char) (cs : List Char) : Option (List Char) :=
  if !boundaryBefore prev then none else
  (matchCI [ 'w', 'e' ] cs).bind fun t =>
    wsPlusThen t fun t2 =>
      (matchCI [ 'd', 'e', 'c', 'i', 'd', 'e', 'd' ] t2).bind fun t3 =>
        decidedLoop t3 (t3.takeWhile isPySpace).length

/-- Position matcher for `DECISION_PATTERNS[1] = \bDecision\s*:\s*([^\.\n]+)`
(IGNORECASE). -/
def patDecisionLabel (prev : Option Char) (cs : List Char) : Option (List Char) :=
  if !boundaryBefore prev then none else
  (matchCI [ 'd', 'e', 'c', 'i', 's', 'i', 'o', 'n' ] cs).bind fun t =>
    wsStarThen t fun t2 =>
      match t2 with
      | ':' :: t3 => wsStarCap t3
      | _ => none

/-- Position matcher for `DECISION_PATTERNS[2] = \bAgreed\s+to\s+([^\.\n]+)`
(IGNORECASE). -/
def patAgreedTo (prev : Option Char) (cs : List Char) : Option (List Char) :=
  if !boundaryBefore prev then none else
  (matchCI [ 'a', 'g', 'r', 'e', 'e', 'd' ] cs).bind fun t =>
    wsPlusThen t fun t2 =>
      (matchCI [ 't', 'o' ] t2).bind wsPlusCap

/-- Position matcher for `DECISION_PATTERNS[3] = \bWe\s+agree\s+to\s+([^\.\n]+)`
(IGNORECASE). -/
def patWeAgreeTo (prev : Option Char) (cs : List Char) : Option (List Char) :=
  if !boundaryBefore prev then none else
  (matchCI [ 'w', 'e' ] cs).bind fun t =>
    wsPlusThen t fun t2 =>
      (matchCI [ 'a', 'g', 'r', 'e', 'e' ] t2).bind fun t3 =>
        wsPlusThen t3 fun t4 =>
          (matchCI [ 't', 'o' ] t4).bind wsPlusCap

/-- The ordered `DECISION_PATTERNS` table, as position matchers. -/
def decisionMatchers : List (Option Char → List Char → Option (List Char)) :=
  [ patWeDecided, patDecisionLabel, patAgreedTo, patWeAgreeTo ]

example : reSearch patIll ("Jane said I'll send the report by Friday, March 14, 2025.").data =
    some ("send the report by Friday, March 14, 2025").data := by decide

example : reSearch patWeDecided ("We decided to ship the update next week.").data =
    some ("ship the update next week").data := by decide

example : reSearch patWeShould ("we should update the docs").data =
    some ("update the docs").data := by decide

/-- First alternative of `DUE_DATE_RE`'s group 2:
`[A-Za-z]+\s+\d{1,2}(?:,\s*\d{4})?` followed by `\b`; returns the consumed
substring (the capture). -/
def dueAlt1 (cs : List Char) : Option (List Char) :=
  let letters := cs.takeWhile isAsciiLetter
  if letters.isEmpty then none else
  let t := cs.drop letters.length
  let w := t.takeWhile isPySpace
  if w.isEmpty then none else
  let t2 := t.drop w.length
  let digs := t2.takeWhile Char.isDigit
  let r := digs.length
  if r = 0 || 2 < r then none else
  let afterD := t2.drop r
  let withYear : Option (List Char) :=
    match afterD with
    | ',' :: t3 =>
      let w2 := t3.takeWhile isPySpace
      let t4 := t3.drop w2.length
      let digs2 := t4.takeWhile Char.isDigit
      if digs2.length = 4 && boundaryAfter (t4.drop 4) then
        some (letters ++ w ++ digs ++ ',' :: w2 ++ digs2)
      else none
    | _ => none
  match withYear with
  | some r2 => some r2
  | none =>
    if boundaryAfter afterD then some (letters ++ w ++ digs) else none

/-- Second alternative of `DUE_DATE_RE`'s group 2 (and the whole of
`DATE_PATTERNS[1]` after its leading `\b`): `\d{1,2}/\d{1,2}/\d{2,4}`
followed by `\b`. -/
def dueAlt2 (cs : List Char) : Option (List Char) :=
  let d1 := cs.takeWhile Char.isDigit
  if d1.isEmpty || 2 < d1.length then none else
  match cs.drop d1.length with
  | '/' :: t =>
    let d2 := t.takeWhile Char.isDigit
    if d2.isEmpty || 2 < d2.length then none else
    (match t.drop d2.length with
     | '/' :: t2 =>
       let d3 := t2.takeWhile Char.isDigit
       if d3.length < 2 || 4 < d3.length then none else
       if boundaryAfter (t2.drop d3.length) then
         some (d1 ++ '/' :: d2 ++ '/' :: d3)
       else none
     | _ => none)
  | _ => none

/-- Third alternative of `DUE_DATE_RE`'s group 2 (and the whole of
`DATE_PATTERNS[0]` after its leading `\b`): `\d{4}-\d{2}-\d{2}` followed
by `\b`. -/
def dueAlt3 (cs : List Char) : Option (List Char) :=
  match cs with
  | a :: b :: c :: d :: '-' :: e :: f :: '-' :: g :: h :: rest =>
    if a.isDigit && b.isDigit && c.isDigit && d.isDigit && e.isDigit && f.isDigit
        && g.isDigit && h.isDigit && boundaryAfter rest then
      some [ a, b, c, d, '-', e, f, '-', g, h ]
    else none
  | _ => none

/-- Group 2 of `DUE_DATE_RE`: the three date-shaped alternatives in order. -/
def dueGroup2 (cs : List Char) : Option (List Char) :=
  match dueAlt1 cs with
  | some r => some r
  | none =>
    match dueAlt2 cs with
    | some r => some r
    | none => dueAlt3 cs

/-- One preposition alternative of `DUE_DATE_RE` followed by `\s+` and group 2. -/
def tryPrep (p : List Char) (cs : List Char) : Option (List Char) :=
  (matchCI p cs).bind fun t => wsPlusThen t dueGroup2

/-- Position matcher for `DUE_DATE_RE` (IGNORECASE):
`\b(by|before|due|on)\s+(alt1|alt2|alt3)\b`; returns group 2. -/
def patDue (prev : Option Char) (cs : List Char) : Option (List Char) :=
  if !boundaryBefore prev then none else
  match tryPrep [ 'b', 'y' ] cs with
  | some r => some r
  | none =>
    match tryPrep [ 'b', 'e', 'f', 'o', 'r', 'e' ] cs with
    | some r => some r
    | none =>
      match tryPrep [ 'd', 'u', 'e' ] cs with
      | some r => some r
      | none => tryPrep [ 'o', 'n' ] cs

/-- Position matcher for the assignee regex
`\bI\b|I(?:'|’)?ll|I\s+will|I(?:'|’)?m\s+going` (IGNORECASE); only existence
matters. -/
def patFirstPerson (prev : Option Char) (cs : List Char) : Option Unit :=
  match cs with
  | c :: rest =>
    if c.toLower = 'i' then
      if boundaryBefore prev && boundaryAfter rest then some () else
      match apoOpt rest fun t => matchCI [ 'l', 'l' ] t with
      | some _ => some ()
      | none =>
        match wsPlusThen rest fun t => matchCI [ 'w', 'i', 'l', 'l' ] t with
        | some _ => some ()
        | none =>
          match apoOpt rest fun t =>
              (matchCI [ 'm' ] t).bind fun t2 =>
                wsPlusThen t2 fun t3 => matchCI [ 'g', 'o', 'i', 'n', 'g' ] t3 with
          | some _ => some ()
          | none => none
    else none
  | [] => none

/-- Model of the `re.search` existence test for the first-person assignee regex. -/
def hasFirstPerson (cs : List Char) : Bool :=
  (reSearch patFirstPerson cs).isSome

/-- Position matcher for `DATE_PATTERNS[0] = \b(\d{4}-\d{2}-\d{2})\b`. -/
def patISO (prev : Option Char) (cs : List Char) : Option (List Char) :=
  if !boundaryBefore prev then none else dueAlt3 cs

/-- Position matcher for `DATE_PATTERNS[1] = \b(\d{1,2}/\d{1,2}/\d{2,4})\b`. -/
def patSlash (prev : Option Char) (cs : List Char) : Option (List Char) :=
  if !boundaryBefore prev then none else dueAlt2 cs

/-- Position matcher for `DATE_PATTERNS[2] = \b(\w+\s+\d{1,2},\s+\d{4})\b`. -/
def patMonthDate (prev : Option Char) (cs : List Char) : Option (List Char) :=
  if !boundaryBefore prev then none else
  let w := cs.takeWhile isWordChar
  if w.isEmpty then none else
  let t := cs.drop w.length
  let sp := t.takeWhile isPySpace
  if sp.isEmpty then none else
  let t2 := t.drop sp.length
  let digs := t2.takeWhile Char.isDigit
  if digs.isEmpty || 2 < digs.length then none else
  match t2.drop digs.length with
  | ',' :: t3 =>
    let sp2 := t3.takeWhile isPySpace
    if sp2.isEmpty then none else
    (match t3.drop sp2.length with
     | a :: b :: c :: d :: rest =>
       if a.isDigit && b.isDigit && c.isDigit && d.isDigit && boundaryAfter rest then
         some (w ++ sp ++ digs ++ ',' :: sp2 ++ [ a, b, c, d ])
       else none
     | _ => none)
  | _ => none

example : reSearch patDue ("send the report by Friday, March 14, 2025").data = none := by
  decide

example : reSearch patDue ("finish it by March 14, 2025 ok").data =
    some ("March 14, 2025").data := by decide

example : reSearch patDue ("done BY 2025-01-31").data = some ("2025-01-31").data := by
  decide

example : hasFirstPerson ("I'll send it").data = true := by decide

example : hasFirstPerson ("we should update the docs").data = false := by decide

example : reSearch patISO ("meet 1/2/20 then 2025-01-31 ok").data =
    some ("2025-01-31").data := by decide

example : reSearch patSlash ("meet 1/2/20 then 2025-01-31 ok").data =
    some ("1/2/20").data := by decide

example : reSearch patMonthDate ("on March 14, 2025 we met").data =
    some ("March 14, 2025").data := by decide

/-- Numeric value of a decimal digit character. -/
def digitVal (c : Char) : Nat :=
  c.toNat - 48

/-- The decimal digit character for `n < 10` (clamped at `9` above). -/
def digitOf (n : Nat) : Char :=
  match n with
  | 0 => '0'
  | 1 => '1'
  | 2 => '2'
  | 3 => '3'
  | 4 => '4'
  | 5 => '5'
  | 6 => '6'
  | 7 => '7'
  | 8 => '8'
  | _ => '9'

/-- Field `%m`/`%d` of `strptime` with its backtracking: a valid two-digit form
(value `1..hi`, no `00`) is tried first, then a single nonzero digit; `k` is
the parse continuation. -/
def parseField2 (hi : Nat) (cs : List Char) (k : Nat → List Char → Option α) : Option α :=
  match cs with
  | c0 :: c1 :: rest =>
    if c0.isDigit && c1.isDigit && 1 ≤ 10 * digitVal c0 + digitVal c1
        && 10 * digitVal c0 + digitVal c1 ≤ hi then
      k (10 * digitVal c0 + digitVal c1) rest
    else none
  | _ => none

def parseField1 (cs : List Char) (k : Nat → List Char → Option α) : Option α :=
  match cs with
  | c0 :: rest =>
    if c0.isDigit && 1 ≤ digitVal c0 then k (digitVal c0) rest else none
  | [] => none

def parseField (hi : Nat) (cs : List Char) (k : Nat → List Char → Option α) : Option α :=
  match parseField2 hi cs k with
  | some r => some r
  | none => parseField1 cs k

/-- Field `%Y` of `strptime`: exactly four digits. -/
def parse4Y (cs : List Char) (k : Nat → List Char → Option α) : Option α :=
  match cs with
  | a :: b :: c :: d :: rest =>
    if a.isDigit && b.isDigit && c.isDigit && d.isDigit then
      k (1000 * digitVal a + 100 * digitVal b + 10 * digitVal c + digitVal d) rest
    else none
  | _ => none

/-- Field `%y` of `strptime`: exactly two digits, mapped to 1969–2068. -/
def parse2y (cs : List Char) (k : Nat → List Char → Option α) : Option α :=
  match cs with
  | c0 :: c1 :: rest =>
    if c0.isDigit && c1.isDigit then
      k (if 10 * digitVal c0 + digitVal c1 ≤ 68 then 2000 + (10 * digitVal c0 + digitVal c1)
         else 1900 + (10 * digitVal c0 + digitVal c1)) rest
    else none
  | _ => none

/-- Whitespace in a `strptime` format string matches `\s+`. -/
def wsPlus1 (cs : List Char) (k : List Char → Option α) : Option α :=
  if (cs.takeWhile isPySpace).length = 0 then none
  else k (cs.drop (cs.takeWhile isPySpace).length)

/-- Gregorian leap year. -/
def isLeap (y : Nat) : Bool :=
  (y % 4 = 0 && !(y % 100 = 0)) || y % 400 = 0

/-- Days in a month, as validated by the `datetime` constructor. -/
def daysInMonth (y m : Nat) : Nat :=
  if m = 2 then (if isLeap y then 29 else 28)
  else if m = 4 || m = 6 || m = 9 || m = 11 then 30
  else 31

/-- The `datetime(y, m, d)` constructor succeeds (year 1–9999, valid month
and calendar day). -/
def validDate (y m d : Nat) : Bool :=
  1 ≤ y && y ≤ 9999 && 1 ≤ m && m ≤ 12 && 1 ≤ d && d ≤ daysInMonth y m

/-- Common tail of the five format parsers: require full consumption of the
input and a constructible date. -/
def finishDate (leftover : List Char) (y m d : Nat) : Option (Nat × Nat × Nat) :=
  if leftover.isEmpty && validDate y m d then some (y, m, d) else none

/-- Model of `strptime(raw, "%Y-%m-%d")` followed by `datetime` validation. -/
def fmtISOParse (cs : List Char) : Option (Nat × Nat × Nat) :=
  parse4Y cs fun y r =>
    match r with
    | c :: r2 =>
      if c = '-' then
        parseField 12 r2 fun m r3 =>
          match r3 with
          | c2 :: r4 =>
            if c2 = '-' then
              parseField 31 r4 fun d r5 =>
                finishDate r5 y m d
            else none
          | [] => none
      else none
    | [] => none

/-- Model of `strptime(raw, "%m/%d/%Y")` followed by `datetime` validation. -/
def fmtSlashYParse (cs : List Char) : Option (Nat × Nat × Nat) :=
  parseField 12 cs fun m r =>
    match r with
    | c :: r2 =>
      if c = '/' then
        parseField 31 r2 fun d r3 =>
          match r3 with
          | c2 :: r4 =>
            if c2 = '/' then
              parse4Y r4 fun y r5 =>
                finishDate r5 y m d
            else none
          | [] => none
      else none
    | [] => none

/-- Model of `strptime(raw, "%m/%d/%y")` followed by `datetime` validation. -/
def fmtSlashyParse (cs : List Char) : Option (Nat × Nat × Nat) :=
  parseField 12 cs fun m r =>
    match r with
    | c :: r2 =>
      if c = '/' then
        parseField 31 r2 fun d r3 =>
          match r3 with
          | c2 :: r4 =>
            if c2 = '/' then
              parse2y r4 fun y r5 =>
                finishDate r5 y m d
            else none
          | [] => none
      else none
    | [] => none

/-- Full month names for `%B` (matched case-insensitively). -/
def monthsFull : List (List Char × Nat) :=
  [ ([ 'j', 'a', 'n', 'u', 'a', 'r', 'y' ], 1),
    ([ 'f', 'e', 'b', 'r', 'u', 'a', 'r', 'y' ], 2),
    ([ 'm', 'a', 'r', 'c', 'h' ], 3),
    ([ 'a', 'p', 'r', 'i', 'l' ], 4),
    ([ 'm', 'a', 'y' ], 5),
    ([ 'j', 'u', 'n', 'e' ], 6),
    ([ 'j', 'u', 'l', 'y' ], 7),
    ([ 'a', 'u', 'g', 'u', 's', 't' ], 8),
    ([ 's', 'e', 'p', 't', 'e', 'm', 'b', 'e', 'r' ], 9),
    ([ 'o', 'c', 't', 'o', 'b', 'e', 'r' ], 10),
    ([ 'n', 'o', 'v', 'e', 'm', 'b', 'e', 'r' ], 11),
    ([ 'd', 'e', 'c', 'e', 'm', 'b', 'e', 'r' ], 12) ]

/-- Abbreviated month names for `%b` (matched case-insensitively). -/
def monthsAbbr : List (List Char × Nat) :=
  [ ([ 'j', 'a', 'n' ], 1), ([ 'f', 'e', 'b' ], 2), ([ 'm', 'a', 'r' ], 3),
    ([ 'a', 'p', 'r' ], 4), ([ 'm', 'a', 'y' ], 5), ([ 'j', 'u', 'n' ], 6),
    ([ 'j', 'u', 'l' ], 7), ([ 'a', 'u', 'g' ], 8), ([ 's', 'e', 'p' ], 9),
    ([ 'o', 'c', 't' ], 10), ([ 'n', 'o', 'v' ], 11), ([ 'd', 'e', 'c' ], 12) ]

/-- Month-name alternation of `%B`/`%b` (the name table is prefix-free, so
at most one entry matches). -/
def matchMonth (tbl : List (List Char × Nat)) (cs : List Char)
    (k : Nat → List Char → Option α) : Option α :=
  match tbl with
  | [] => none
  | (nm, v) :: rest =>
    match (matchCI nm cs).bind (k v) with
    | some r => some r
    | none => matchMonth rest cs k

/-- Model of `strptime(raw, "%B %d, %Y")` and `"%b %d, %Y"` followed by `datetime`
validation (the format's spaces match `\s+`, the comma is literal). -/
def fmtMonthParse (tbl : List (List Char × Nat)) (cs : List Char) :
    Option (Nat × Nat × Nat) :=
  matchMonth tbl cs fun m r =>
    wsPlus1 r fun r2 =>
      parseField 31 r2 fun d r3 =>
        match r3 with
        | c :: r4 =>
          if c = ',' then
            wsPlus1 r4 fun r5 =>
              parse4Y r5 fun y r6 =>
                finishDate r6 y m d
          else none
        | [] => none

/-- The ordered format list of `_normalize_date`: the first format that both
parses and yields a constructible date wins. -/
def tryParseDate (cs : List Char) : Option (Nat × Nat × Nat) :=
  match fmtISOParse cs with
  | some r => some r
  | none =>
    match fmtSlashYParse cs with
    | some r => some r
    | none =>
      match fmtSlashyParse cs with
      | some r => some r
      | none =>
        match fmtMonthParse monthsFull cs with
        | some r => some r
        | none => fmtMonthParse monthsAbbr cs

/-- Two-digit zero-padded decimal, for `strftime` `%m`/`%d`. -/
def pad2 (n : Nat) : List Char :=
  [ digitOf (n / 10 % 10), digitOf (n % 10) ]

/-- Four-digit zero-padded decimal, for `strftime` `%Y`. -/
def pad4 (n : Nat) : List Char :=
  [ digitOf (n / 1000 % 10), digitOf (n / 100 % 10), digitOf (n / 10 % 10),
    digitOf (n % 10) ]

/-- Model of `strftime("%Y-%m-%d")`: the canonical `YYYY-MM-DD` form. -/
def formatDate (y m d : Nat) : List Char :=
  pad4 y ++ '-' :: pad2 m ++ '-' :: pad2 d

/-- Model of `_normalize_date`: strip, try the five formats in order, reformat the
first success as `YYYY-MM-DD`; on total parse failure return the stripped
input (never raises). -/
def normalize_date (s : String) : String :=
  let t := pyStrip s.data
  match tryParseDate t with
  | some (y, m, d) => String.mk (formatDate y m d)
  | none => String.mk t

example : normalize_date ("2025-03-05") = ("2025-03-05") := by decide
example : normalize_date ("3/5/2025") = ("2025-03-05") := by decide
example : normalize_date ("3/5/25") = ("2025-03-05") := by decide
example : normalize_date ("March 5, 2025") = ("2025-03-05") := by decide
example : normalize_date ("Mar 5, 2025") = ("2025-03-05") := by decide
example : normalize_date ("Friday, March 14, 2025") = ("Friday, March 14, 2025") := by
  decide
example : normalize_date ("02/30/2025") = ("02/30/2025") := by decide
example : normalize_date (" next week ") = ("next week") := by decide

/-- An extracted action item: `{assignee, task, due_date}`. -/
structure ActionItem where
  assignee : Option String
  task : String
  due_date : Option String
deriving DecidableEq, Repr

/-- Strict code-point lexicographic order on character lists, the order
Python uses to compare strings. -/
def lexLt : List Char → List Char → Bool
  | [], [] => false
  | [], _ :: _ => true
  | _ :: _, [] => false
  | a :: as, b :: bs =>
    if a < b then true else if b < a then false else lexLt as bs

/-- The ascending comparison of Python `sorted` on strings. -/
def strLe (a b : String) : Bool :=
  !(lexLt b.data a.data)

/-- Insert into a `strLe`-sorted list, keeping it sorted. -/
def insertSorted (x : String) : List String → List String
  | [] => [ x ]
  | y :: ys => if strLe x y then x :: y :: ys else y :: insertSorted x ys

/-- Insertion sort by `strLe`, Python `sorted` on strings. -/
def sortStrings : List String → List String
  | [] => []
  | x :: xs => insertSorted x (sortStrings xs)

/-- Model of `sorted(set(...))`: the distinct collected names in ascending order. -/
def sortedSet (l : List String) : List String :=
  sortStrings l.dedup

/-- Names collected by `extract_participants` in scan order: the stripped
group 1 of a `SPEAKER_RE` match, else (only if the speaker shape failed) the
stripped nonempty fragments of the `Participants:` roster split. -/
def collectParticipants : List String → List String
  | [] => []
  | line :: rest =>
    match speakerMatch line.data with
    | some (nm, _) => String.mk (pyStrip nm) :: collectParticipants rest
    | none =>
      match reSearch patParticipantsLabel line.data with
      | some cap =>
        (((splitNames none [] cap).map pyStrip).filter
            (fun f => !f.isEmpty)).map String.mk
          ++ collectParticipants rest
      | none => collectParticipants rest

/-- Model of `extract_participants`. -/
def extract_participants (lines : List String) : List String :=
  sortedSet (collectParticipants lines)

/-- Per-line action pattern loop: the first pattern that matches is cleaned;
a match whose cleaned capture is empty is skipped and LATER patterns are
still tried; the first nonempty cleaned capture is the task. -/
def tryActionPatterns :
    List (Option Char → List Char → Option (List Char)) → List Char →
      Option (List Char)
  | [], _ => none
  | p :: ps, content =>
    match reSearch p content with
    | none => tryActionPatterns ps content
    | some cap =>
      if (clean_task cap).isEmpty then tryActionPatterns ps content
      else some (clean_task cap)

/-- Per-line decision pattern loop: the first pattern that matches wins
unconditionally (`break` on match); if its cleaned capture is empty the line
yields no decision and no later pattern is tried. -/
def tryDecisionPatterns :
    List (Option Char → List Char → Option (List Char)) → List Char →
      Option (List Char)
  | [], _ => none
  | p :: ps, content =>
    match reSearch p content with
    | none => tryDecisionPatterns ps content
    | some cap =>
      if (clean_task cap).isEmpty then none else some (clean_task cap)

/-- Model of `_find_due_date`: search the line content for `DUE_DATE_RE` and
normalize group 2. -/
def find_due_date (content : List Char) : Option String :=
  (reSearch patDue content).map fun cap => normalize_date (String.mk cap)

/-- The speaker-aware content of a line: group 2 stripped if `SPEAKER_RE`
matched, else the raw line. -/
def lineContent (line : List Char) : List Char :=
  match speakerMatch line with
  | some (_, c) => pyStrip c
  | none => line

/-- The at-most-one `ActionItem` contributed by one line: first viable
action pattern for the task, first-person heuristic for the assignee,
independent due-date search, all over the speaker-aware content. -/
def actionLine (spk : Option String) (content : List Char) : List ActionItem :=
  match tryActionPatterns actionMatchers content with
  | some task =>
    [ { assignee := if hasFirstPerson content then spk else none,
        task := String.mk task,
        due_date := find_due_date content } ]
  | none => []

/-- Loop body of `extract_action_items`, threading the rolling current-speaker
context (updated before the line's own item is built). -/
def extractActionsGo (spk : Option String) : List String → List ActionItem
  | [] => []
  | line :: rest =>
    match speakerMatch line.data with
    | some (nm, c) =>
      actionLine (some (String.mk (pyStrip nm))) (pyStrip c)
        ++ extractActionsGo (some (String.mk (pyStrip nm))) rest
    | none => actionLine spk line.data ++ extractActionsGo spk rest

/-- Model of `extract_action_items`. -/
def extract_action_items (lines : List String) : List ActionItem :=
  extractActionsGo none lines

/-- Model of `extract_decisions`. -/
def extract_decisions : List String → List String
  | [] => []
  | line :: rest =>
    (match tryDecisionPatterns decisionMatchers (lineContent line.data) with
     | some d => [ String.mk d ]
     | none => []) ++ extract_decisions rest

/-- Model of `extract_meeting_date`: the three `DATE_PATTERNS` in priority order over
the whole text; the first match of the first matching pattern, normalized. -/
def extract_meeting_date (text : String) : Option String :=
  match reSearch patISO text.data with
  | some cap => some (normalize_date (String.mk cap))
  | none =>
    match reSearch patSlash text.data with
    | some cap => some (normalize_date (String.mk cap))
    | none =>
      match reSearch patMonthDate text.data with
      | some cap => some (normalize_date (String.mk cap))
      | none => none

/-- Python `summary.endswith(".")`. -/
def endsWithDot (s : String) : Bool :=
  s.data.getLast? = some '.'

/-- The fixed fallback sentence of `build_summary`. -/
def fallbackSummary : String :=
  "No explicit action items or decisions were detected in the transcript. The meeting appears to be informational or exploratory. Review the transcript for any implied follow-ups."

/-- The fixed trailing note of `build_summary`. -/
def followUpNote : String :=
  " Additional follow-ups may be noted in the transcript."

/-- The decisions fragment of `build_summary`. -/
def decisionsFragment (decisions : List String) : String :=
  "Key decisions were made on " ++ toString decisions.length
    ++ " topic(s), including: " ++ decisions.headD ""

/-- Python truthiness on the first item's assignee: `None` and the empty
string both fall back to `"the team"`. -/
def assigneeText (a : Option String) : String :=
  match a with
  | some s => if s = "" then "the team" else s
  | none => "the team"

/-- The action-items fragment of `build_summary`. -/
def actionsFragment (items : List ActionItem) : String :=
  "Action items were assigned, starting with "
    ++ assigneeText ((items.headD { assignee := none, task := "", due_date := none }).assignee)
    ++ " to " ++ (items.headD { assignee := none, task := "", due_date := none }).task

/-- Python `". ".join(parts)`. -/
def joinParts : List String → String
  | [] => ""
  | [ p ] => p
  | p :: q :: rest => p ++ (". ") ++ joinParts (q :: rest)

/-- Model of `build_summary`. -/
def build_summary (action_items : List ActionItem) (decisions : List String) : String :=
  if action_items.isEmpty && decisions.isEmpty then fallbackSummary
  else
    let parts : List String :=
      (if decisions.isEmpty then [] else [ decisionsFragment decisions ])
        ++ (if action_items.isEmpty then [] else [ actionsFragment action_items ])
    let summary := joinParts parts
    let summary := if endsWithDot summary then summary else summary ++ "."
    if parts.length = 1 then summary ++ followUpNote else summary

example : extract_participants [ ("Participants: Alice, Bob and Carol"),
    ("We decided to ship the update next week.") ] = [ ("Participants") ] := by decide

example : extract_decisions [ ("Participants: Alice, Bob and Carol"),
    ("We decided to ship the update next week.") ] =
    [ ("ship the update next week") ] := by decide

example : extract_participants [ ("participants: Alice, Bob and Carol") ] =
    [ ("Alice"), ("Bob"), ("Carol") ] := by decide

example : extract_action_items [ ("Jane: I'll send the report by Friday, March 14, 2025.") ] =
    [ { assignee := some ("Jane"),
        task := ("send the report by Friday, March 14, 2025"),
        due_date := none } ] := by decide

example : extract_action_items [ ("I'll ,;. We should update the docs") ] =
    [ { assignee := none, task := ("update the docs"), due_date := none } ] := by decide

example : extract_meeting_date ("meet 1/2/20 then 2025-01-31 ok") =
    some ("2025-01-31") := by decide

/-- C1: the code disagrees with the claim. On the two-line input
`"Participants: Alice, Bob and Carol"` / `"We decided to ship the update
next week."`, the roster line itself matches `SPEAKER_RE` (an uppercase
word followed by a colon and content), so `extract_participants` records
the literal speaker name `"Participants"` and the `PARTICIPANTS_RE` roster
branch — which sits in the `else` of the speaker test — is never reached;
the decisions part of the claim does hold. -/
theorem C1_roster_shadowed_eval :
    extract_participants [ ("Participants: Alice, Bob and Carol"),
        ("We decided to ship the update next week.") ] = [ ("Participants") ] ∧
    extract_decisions [ ("Participants: Alice, Bob and Carol"),
        ("We decided to ship the update next week.") ] =
      [ ("ship the update next week") ] := by
  constructor
  · decide
  · decide

/-- C2, counterexample: on `"Jane: I'll send the report by Friday, March 14,
2025."` the capture group `[^\.\n]+` runs to the first period, so the task is
`"send the report by Friday, March 14, 2025"` (not `"send the report"`), and
`DUE_DATE_RE` finds no due date at all (after `by` the token `"Friday,"` is
not date-shaped: `[A-Za-z]+\s+\d` fails on the comma), so the claimed item is
not produced. -/
theorem C2_counterexample :
    ¬ (extract_action_items
          [ ("Jane: I'll send the report by Friday, March 14, 2025.") ] =
        [ { assignee := some ("Jane"), task := ("send the report"),
            due_date := some ("2025-03-14") } ]) := by
  decide

/-- C2, amended: the single-line input produces exactly one action item with
assignee `"Jane"`, task `"send the report by Friday, March 14, 2025"` (the
capture stops only at the sentence-final period), and no due date (the
due-date regex requires a date-shaped token directly after the preposition,
and `"Friday,"` blocks it). -/
theorem C2_amended_action_item :
    extract_action_items
        [ ("Jane: I'll send the report by Friday, March 14, 2025.") ] =
      [ { assignee := some ("Jane"),
          task := ("send the report by Friday, March 14, 2025"),
          due_date := none } ] := by
  decide

/-- C3, counterexample: on the line `"I'll ,;. We should update the docs"`
the first pattern (`\bI(?:'|’)?ll\s+([^\.\n]+)`) matches with capture `",;"`,
whose cleaned form is empty — yet an `ActionItem` IS produced for the line,
because the loop `continue`s to later patterns and `\bWe\s+should` then
matches; the claim's "no ActionItem at all is produced for that line" is
false. -/
theorem C3_counterexample :
    reSearch patIll ("I'll ,;. We should update the docs").data =
        some ((",;").data) ∧
    clean_task ((",;").data) = [] ∧
    extract_action_items [ ("I'll ,;. We should update the docs") ] =
      [ { assignee := none, task := ("update the docs"), due_date := none } ] := by
  refine ⟨by decide, by decide, by decide⟩

/-- C4, counterexample: `SPEAKER_RE` is `[A-Z][\w .'-]{1,50}`, so a speaker
name needs at least TWO characters (one capital plus 1–50 class characters);
the one-character name `"A"` does not qualify: the line `"A: hello"` is not
classified as a speaker line and no participant is recorded. -/
theorem C4_counterexample :
    speakerMatch ("A: hello").data = none ∧
    extract_participants [ ("A: hello") ] = [] := by
  refine ⟨by decide, by decide⟩

/-- C6, counterexample: `_normalize_date` strips its input before trying the
formats, so an unsupported input is NOT returned unchanged when it carries
surrounding whitespace: `" x "` comes back as `"x"`. -/
theorem C6_counterexample :
    normalize_date (" x ") = ("x") ∧ ¬ ((" x ") = ("x" : String)) := by
  refine ⟨by decide, by decide⟩

/-- C10: the action patterns, decision patterns, `Participants:` roster
label, and due-date preposition search are all compiled with `re.IGNORECASE`:
the all-lowercase `"we should update the docs"` yields the task
`"update the docs"`, lowercase `"participants: Alice"` is recognized as a
roster line, lowercase `"we decided to ship it"` yields a decision, and the
uppercase preposition in `"done BY 2025-01-31"` still yields a due date. -/
theorem C10_case_insensitive :
    extract_action_items [ ("we should update the docs") ] =
      [ { assignee := none, task := ("update the docs"), due_date := none } ] ∧
    extract_participants [ ("participants: Alice") ] = [ ("Alice") ] ∧
    extract_decisions [ ("we decided to ship it") ] = [ ("ship it") ] ∧
    find_due_date ("done BY 2025-01-31").data = some ("2025-01-31") := by
  refine ⟨by decide, by decide, by decide, by decide⟩


theorem endsWithDot_append (s : String) : endsWithDot (s ++ (".")) = true := by
  have h : (s ++ (".")).data.getLast? = some '.' := by
    rw [String.data_append]
    have e : (".").data = [ '.' ] := rfl
    rw [e]
    exact List.getLast?_concat _
  simp [endsWithDot, h]

/-- C5: meeting-date extraction follows the fixed pattern priority over the
whole text: the result is absent iff none of the three date patterns matches
anywhere; if the ISO pattern matches anywhere, its first match (normalized)
is returned even when another pattern matches earlier in the text; the slash
pattern is consulted only when ISO fails, and the spelled-month pattern only
when both fail — so exactly one date is extracted per document. -/
theorem C5_meeting_date_priority (text : String) :
    (extract_meeting_date text = none ↔
      reSearch patISO text.data = none ∧ reSearch patSlash text.data = none ∧
        reSearch patMonthDate text.data = none) ∧
    (∀ cap, reSearch patISO text.data = some cap →
      extract_meeting_date text = some (normalize_date (String.mk cap))) ∧
    (∀ cap, reSearch patISO text.data = none →
      reSearch patSlash text.data = some cap →
      extract_meeting_date text = some (normalize_date (String.mk cap))) ∧
    (∀ cap, reSearch patISO text.data = none →
      reSearch patSlash text.data = none →
      reSearch patMonthDate text.data = some cap →
      extract_meeting_date text = some (normalize_date (String.mk cap))) := by
  unfold extract_meeting_date
  cases h1 : reSearch patISO text.data with
  | some c1 => simp [h1]
  | none =>
    cases h2 : reSearch patSlash text.data with
    | some c2 => simp [h1, h2]
    | none =>
      cases h3 : reSearch patMonthDate text.data with
      | some c3 => simp [h1, h2, h3]
      | none => simp [h1, h2, h3]

/-- C5, witness: on `"meet 1/2/20 then 2025-01-31 ok"` the slash date occurs
earlier but the ISO date wins. -/
theorem C5_meeting_date_priority_witness :
    extract_meeting_date ("meet 1/2/20 then 2025-01-31 ok") =
      some (normalize_date (String.mk (("2025-01-31").data))) :=
  (C5_meeting_date_priority ("meet 1/2/20 then 2025-01-31 ok")).2.1
    (("2025-01-31").data) (by decide)

/-- C7: the summary is a pure function of the two lists. Both lists empty
gives exactly the fixed fallback sentence. Both nonempty gives exactly the
decision-count fragment joined to the assignee/task fragment with `". "`,
a final period ensured, and no trailing follow-up note. When exactly one
list is nonempty (one fragment), the fixed follow-up note is appended. -/
theorem C7_summary_cases :
    build_summary [] [] = fallbackSummary ∧
    (∀ (a : ActionItem) (as : List ActionItem) (d : String) (ds : List String),
      build_summary (a :: as) (d :: ds) =
        (if endsWithDot (decisionsFragment (d :: ds) ++ (". ")
              ++ actionsFragment (a :: as)) then
          decisionsFragment (d :: ds) ++ (". ") ++ actionsFragment (a :: as)
        else decisionsFragment (d :: ds) ++ (". ")
              ++ actionsFragment (a :: as) ++ (".")) ∧
      endsWithDot (build_summary (a :: as) (d :: ds)) = true) ∧
    (∀ (d : String) (ds : List String),
      build_summary [] (d :: ds) =
        (if endsWithDot (decisionsFragment (d :: ds)) then
          decisionsFragment (d :: ds)
        else decisionsFragment (d :: ds) ++ (".")) ++ followUpNote) ∧
    (∀ (a : ActionItem) (as : List ActionItem),
      build_summary (a :: as) [] =
        (if endsWithDot (actionsFragment (a :: as)) then
          actionsFragment (a :: as)
        else actionsFragment (a :: as) ++ (".")) ++ followUpNote) := by
  refine ⟨rfl, ?_, ?_, ?_⟩
  · intro a as d ds
    have e : build_summary (a :: as) (d :: ds) =
        if endsWithDot (decisionsFragment (d :: ds) ++ (". ")
              ++ actionsFragment (a :: as)) then
          decisionsFragment (d :: ds) ++ (". ") ++ actionsFragment (a :: as)
        else decisionsFragment (d :: ds) ++ (". ")
              ++ actionsFragment (a :: as) ++ (".") := by
      simp [build_summary, joinParts]
    refine ⟨e, ?_⟩
    rw [e]
    split
    · assumption
    · exact endsWithDot_append _
  · intro d ds
    simp [build_summary, joinParts]
  · intro a as
    simp [build_summary, joinParts]

/-- A pattern is viable on a line when it matches somewhere and its cleaned
capture is nonempty. -/
def viableAction (p : Option Char → List Char → Option (List Char))
    (content : List Char) : Bool :=
  match reSearch p content with
  | some cap => !(clean_task cap).isEmpty
  | none => false

theorem tryActionPatterns_find (ps : List (Option Char → List Char → Option (List Char)))
    (content : List Char) :
    tryActionPatterns ps content =
      (ps.find? fun p => viableAction p content).map
        (fun p => clean_task ((reSearch p content).getD [])) := by
  induction ps with
  | nil => rfl
  | cons p ps ih =>
    unfold tryActionPatterns
    cases h : reSearch p content with
    | none =>
      have hv : viableAction p content = false := by simp [viableAction, h]
      simp only [List.find?_cons, hv]
      exact ih
    | some cap =>
      by_cases hc : (clean_task cap).isEmpty
      · have hv : viableAction p content = false := by simp [viableAction, h, hc]
        simp only [List.find?_cons, hv, hc, if_pos]
        exact ih
      · rw [Bool.not_eq_true] at hc
        have hv : viableAction p content = true := by simp [viableAction, h, hc]
        simp only [List.find?_cons, hv, h, Option.getD_some]
        simp [hc]
        rw [h, Option.getD_some]

theorem actionLine_length (spk : Option String) (content : List Char) :
    (actionLine spk content).length ≤ 1 := by
  unfold actionLine
  cases tryActionPatterns actionMatchers content <;> simp

theorem extractActionsGo_length (spk : Option String) (lines : List String) :
    (extractActionsGo spk lines).length ≤ lines.length := by
  induction lines generalizing spk with
  | nil => simp [extractActionsGo]
  | cons line rest ih =>
    unfold extractActionsGo
    cases hm : speakerMatch line.data with
    | none =>
      have h1 := actionLine_length spk line.data
      have h2 := ih spk
      simp only [List.length_append, List.length_cons]
      omega
    | some pr =>
      obtain ⟨nm, c⟩ := pr
      have h1 := actionLine_length (some (String.mk (pyStrip nm))) (pyStrip c)
      have h2 := ih (some (String.mk (pyStrip nm)))
      simp only [List.length_append, List.length_cons]
      omega

/-- C3, amended: the action patterns are tried in their fixed priority order
and the winner is the FIRST pattern whose match survives cleaning (nonempty
cleaned capture): a pattern that matches but cleans to empty is skipped and
later patterns are still tried (rather than discarding the whole line); at
most one `ActionItem` is produced per line. -/
theorem C3_amended_first_viable :
    (∀ content : List Char,
      tryActionPatterns actionMatchers content =
        (actionMatchers.find? fun p => viableAction p content).map
          (fun p => clean_task ((reSearch p content).getD []))) ∧
    (∀ lines : List String, (extract_action_items lines).length ≤ lines.length) :=
  ⟨fun content => tryActionPatterns_find actionMatchers content,
   fun lines => extractActionsGo_length none lines⟩

theorem lexLt_asymm : ∀ as bs : List Char, lexLt as bs = true → lexLt bs as = false := by
  intro as
  induction as with
  | nil =>
    intro bs h
    cases bs with
    | nil => simp [lexLt] at h
    | cons b bs => simp [lexLt]
  | cons a as ih =>
    intro bs h
    cases bs with
    | nil => simp [lexLt] at h
    | cons b bs =>
      simp only [lexLt] at h ⊢
      by_cases h1 : a < b
      · have h2 : ¬ b < a := lt_asymm h1
        simp [h1, h2]
      · by_cases h2 : b < a
        · simp [h1, h2] at h
        · simp only [if_neg h1, if_neg h2] at h ⊢
          exact ih bs h

theorem lexLt_conn : ∀ as bs : List Char,
    lexLt as bs = false → lexLt bs as = false → as = bs := by
  intro as
  induction as with
  | nil =>
    intro bs h h'
    cases bs with
    | nil => rfl
    | cons b bs => simp [lexLt] at h
  | cons a as ih =>
    intro bs h h'
    cases bs with
    | nil => simp [lexLt] at h'
    | cons b bs =>
      simp only [lexLt] at h h'
      by_cases h1 : a < b
      · simp [h1] at h
      · by_cases h2 : b < a
        · simp [h2] at h'
        · have hab : a = b := le_antisymm (not_lt.mp h2) (not_lt.mp h1)
          subst hab
          simp only [if_neg (lt_irrefl a)] at h h'
          rw [ih bs h h']

theorem lexLt_trans : ∀ as bs cs : List Char,
    lexLt as bs = true → lexLt bs cs = true → lexLt as cs = true := by
  intro as
  induction as with
  | nil =>
    intro bs cs h h'
    cases bs with
    | nil => simp [lexLt] at h
    | cons b bs =>
      cases cs with
      | nil => simp [lexLt] at h'
      | cons c cs => simp [lexLt]
  | cons a as ih =>
    intro bs cs h h'
    cases bs with
    | nil => simp [lexLt] at h
    | cons b bs =>
      cases cs with
      | nil => simp [lexLt] at h'
      | cons c cs =>
        simp only [lexLt] at h h' ⊢
        by_cases h1 : a < b
        · by_cases h2 : b < c
          · have : a < c := lt_trans h1 h2
            simp [this]
          · by_cases h3 : c < b
            · simp [h2, h3] at h'
            · have hbc : b = c := le_antisymm (not_lt.mp h3) (not_lt.mp h2)
              subst hbc
              simp [h1]
        · by_cases h4 : b < a
          · simp [h1, h4] at h
          · have hab : a = b := le_antisymm (not_lt.mp h4) (not_lt.mp h1)
            subst hab
            simp only [if_neg (lt_irrefl a)] at h
            by_cases h2 : a < c
            · simp [h2]
            · by_cases h3 : c < a
              · simp [h2, h3] at h'
              · simp only [if_neg h2, if_neg h3] at h' ⊢
                exact ih bs cs h h'

theorem strLe_trans (a b c : String) (h : strLe a b = true) (h' : strLe b c = true) :
    strLe a c = true := by
  unfold strLe at h h' ⊢
  rw [Bool.not_eq_true'] at h h' ⊢
  by_cases hca : lexLt c.data a.data = true
  · by_cases hbc : lexLt b.data c.data = true
    · have := lexLt_trans _ _ _ hbc hca
      rw [this] at h
      exact absurd h (by simp)
    · have hbc' : b.data = c.data := lexLt_conn _ _ (by simpa using hbc) h'
      rw [← hbc'] at hca
      rw [hca] at h
      exact absurd h (by simp)
  · simpa using hca

theorem strLe_total (a b : String) : strLe a b = true ∨ strLe b a = true := by
  unfold strLe
  by_cases h : lexLt b.data a.data = true
  · right
    have := lexLt_asymm _ _ h
    simp [this]
  · left
    simp only [Bool.not_eq_true] at h
    simp [h]

theorem perm_insertSorted (x : String) (l : List String) :
    (insertSorted x l).Perm (x :: l) := by
  induction l with
  | nil => exact List.Perm.refl _
  | cons y ys ih =>
    unfold insertSorted
    by_cases h : strLe x y = true
    · simp only [if_pos h]
      exact List.Perm.refl _
    · simp only [if_neg h]
      exact (List.Perm.cons y ih).trans (List.Perm.swap x y ys)

theorem pairwise_insertSorted (x : String) (l : List String)
    (h : l.Pairwise (fun a b => strLe a b = true)) :
    (insertSorted x l).Pairwise (fun a b => strLe a b = true) := by
  induction l with
  | nil => simp [insertSorted]
  | cons y ys ih =>
    rw [List.pairwise_cons] at h
    obtain ⟨hy, hys⟩ := h
    unfold insertSorted
    by_cases hxy : strLe x y = true
    · simp only [if_pos hxy]
      rw [List.pairwise_cons]
      refine ⟨?_, ?_⟩
      · intro z hz
        rcases List.mem_cons.mp hz with hz | hz
        · subst hz
          exact hxy
        · exact strLe_trans x y z hxy (hy z hz)
      · rw [List.pairwise_cons]
        exact ⟨hy, hys⟩
    · simp only [if_neg hxy]
      rw [List.pairwise_cons]
      refine ⟨?_, ih hys⟩
      intro z hz
      rcases List.mem_cons.mp ((perm_insertSorted x ys).mem_iff.mp hz) with hz | hz
      · rw [hz]
        rcases strLe_total x y with h | h
        · exact absurd h hxy
        · exact h
      · exact hy z hz

theorem sortStrings_perm (l : List String) : (sortStrings l).Perm l := by
  induction l with
  | nil => exact List.Perm.refl _
  | cons x xs ih =>
    unfold sortStrings
    exact (perm_insertSorted x (sortStrings xs)).trans (List.Perm.cons x ih)

theorem pairwise_sortStrings (l : List String) :
    (sortStrings l).Pairwise (fun a b => strLe a b = true) := by
  induction l with
  | nil => simp [sortStrings]
  | cons x xs ih =>
    unfold sortStrings
    exact pairwise_insertSorted x (sortStrings xs) ih

/-- C8: for every input line list, the participants list is sorted ascending
(adjacent-free pairwise `strLe`, the code-point lexicographic order Python
`sorted` uses) and contains no duplicate names, even when a speaker appears
on several lines: the collected names are deduplicated as a set and then
sorted. -/
theorem C8_participants_sorted_nodup (lines : List String) :
    (extract_participants lines).Pairwise (fun a b => strLe a b = true) ∧
    (extract_participants lines).Nodup := by
  constructor
  · exact pairwise_sortStrings _
  · have h1 : (collectParticipants lines).dedup.Nodup := List.nodup_dedup _
    exact ((sortStrings_perm (collectParticipants lines).dedup).symm.nodup h1)

theorem capFrom_notPN {cs r : List Char} (h : capFrom cs = some r) :
    ∀ c ∈ r, notPN c = true := by
  unfold capFrom at h
  split at h
  · exact absurd h (by simp)
  · intro c hc
    exact List.mem_takeWhile_imp (Option.some.inj h ▸ hc)

theorem wsCapLoop_notPN {cs r : List Char} :
    ∀ n, wsCapLoop cs n = some r → ∀ c ∈ r, notPN c = true := by
  intro n
  induction n with
  | zero => intro h; simp [wsCapLoop] at h
  | succ j ih =>
    intro h
    unfold wsCapLoop at h
    cases hc : capFrom (cs.drop (j + 1)) with
    | some r' =>
      rw [hc] at h
      exact Option.some.inj h ▸ capFrom_notPN hc
    | none =>
      rw [hc] at h
      exact ih h

theorem wsPlusCap_notPN {cs r : List Char} (h : wsPlusCap cs = some r) :
    ∀ c ∈ r, notPN c = true :=
  wsCapLoop_notPN _ h

theorem wsCapLoop0_notPN {cs r : List Char} :
    ∀ n, wsCapLoop0 cs n = some r → ∀ c ∈ r, notPN c = true := by
  intro n
  induction n with
  | zero =>
    intro h
    exact capFrom_notPN h
  | succ j ih =>
    intro h
    unfold wsCapLoop0 at h
    cases hc : capFrom (cs.drop (j + 1)) with
    | some r' =>
      rw [hc] at h
      exact Option.some.inj h ▸ capFrom_notPN hc
    | none =>
      rw [hc] at h
      exact ih h

theorem wsStarCap_notPN {cs r : List Char} (h : wsStarCap cs = some r) :
    ∀ c ∈ r, notPN c = true :=
  wsCapLoop0_notPN _ h

theorem decidedLoop_notPN {cs r : List Char} :
    ∀ n, decidedLoop cs n = some r → ∀ c ∈ r, notPN c = true := by
  intro n
  induction n with
  | zero => intro h; simp [decidedLoop] at h
  | succ j ih =>
    intro h
    unfold decidedLoop at h
    cases h1 : (matchCI [ 't', 'o' ] (cs.drop (j + 1))).bind wsPlusCap with
    | some r' =>
      rw [h1] at h
      obtain ⟨t2, _, h3⟩ := Option.bind_eq_some.mp h1
      exact Option.some.inj h ▸ wsPlusCap_notPN h3
    | none =>
      rw [h1] at h
      cases h2 : capFrom (cs.drop (j + 1)) with
      | some r' =>
        rw [h2] at h
        exact Option.some.inj h ▸ capFrom_notPN h2
      | none =>
        rw [h2] at h
        exact ih h

theorem apoOpt_some {α : Type} {cs : List Char} {k : List Char → Option α} {r : α}
    (h : apoOpt cs k = some r) : ∃ t, k t = some r := by
  unfold apoOpt at h
  split at h
  · split at h
    · cases hk : k _ with
      | some r' =>
        rw [hk] at h
        exact ⟨_, hk.trans (congrArg some (Option.some.inj h))⟩
      | none =>
        rw [hk] at h
        exact ⟨_, h⟩
    · exact ⟨_, h⟩
  · exact ⟨_, h⟩

theorem wsPlusThen_some {α : Type} {cs : List Char} {k : List Char → Option α} {r : α}
    (h : wsPlusThen cs k = some r) : ∃ t, k t = some r := by
  unfold wsPlusThen at h
  split at h
  · exact absurd h (by simp)
  · exact ⟨_, h⟩

theorem wsStarThen_some {α : Type} {cs : List Char} {k : List Char → Option α} {r : α}
    (h : wsStarThen cs k = some r) : ∃ t, k t = some r :=
  ⟨_, h⟩

theorem searchGo_some {α : Type} {m : Option Char → List Char → Option α} {r : α} :
    ∀ (cs : List Char) (prev : Option Char), searchGo m prev cs = some r →
      ∃ prev' cs', m prev' cs' = some r := by
  intro cs
  induction cs with
  | nil =>
    intro prev h
    exact ⟨prev, [], h⟩
  | cons c rest ih =>
    intro prev h
    unfold searchGo at h
    cases hm : m prev (c :: rest) with
    | some r' =>
      rw [hm] at h
      exact ⟨prev, c :: rest, hm.trans (congrArg some (Option.some.inj h))⟩
    | none =>
      rw [hm] at h
      exact ih (some c) h

theorem reSearch_some {α : Type} {m : Option Char → List Char → Option α} {r : α}
    {cs : List Char} (h : reSearch m cs = some r) : ∃ prev' cs', m prev' cs' = some r :=
  searchGo_some cs none h

/-- Every capture the matcher can yield is free of periods and newlines. -/
def capsOk (p : Option Char → List Char → Option (List Char)) : Prop :=
  ∀ prev cs r, p prev cs = some r → ∀ c ∈ r, notPN c = true

theorem patIll_capsOk : capsOk patIll := by
  intro prev cs r h
  unfold patIll at h
  split at h
  · exact absurd h (by simp)
  · split at h
    · split at h
      · obtain ⟨t, ht⟩ := apoOpt_some h
        obtain ⟨t2, _, h2⟩ := Option.bind_eq_some.mp ht
        exact wsPlusCap_notPN h2
      · exact absurd h (by simp)
    · exact absurd h (by simp)

theorem patImGoing_capsOk : capsOk patImGoing := by
  intro prev cs r h
  unfold patImGoing at h
  split at h
  · exact absurd h (by simp)
  · split at h
    · split at h
      · obtain ⟨t, ht⟩ := apoOpt_some h
        obtain ⟨t2, _, h2⟩ := Option.bind_eq_some.mp ht
        obtain ⟨t3, h3⟩ := wsPlusThen_some h2
        obtain ⟨t4, _, h4⟩ := Option.bind_eq_some.mp h3
        obtain ⟨t5, h5⟩ := wsPlusThen_some h4
        obtain ⟨t6, _, h6⟩ := Option.bind_eq_some.mp h5
        exact wsPlusCap_notPN h6
      · exact absurd h (by simp)
    · exact absurd h (by simp)

theorem patIWill_capsOk : capsOk patIWill := by
  intro prev cs r h
  unfold patIWill at h
  split at h
  · exact absurd h (by simp)
  · split at h
    · split at h
      · obtain ⟨t, ht⟩ := wsPlusThen_some h
        obtain ⟨t2, _, h2⟩ := Option.bind_eq_some.mp ht
        exact wsPlusCap_notPN h2
      · exact absurd h (by simp)
    · exact absurd h (by simp)

theorem patYouShould_capsOk : capsOk patYouShould := by
  intro prev cs r h
  unfold patYouShould at h
  split at h
  · exact absurd h (by simp)
  · obtain ⟨t, _, ht⟩ := Option.bind_eq_some.mp h
    obtain ⟨t2, h2⟩ := wsPlusThen_some ht
    obtain ⟨t3, _, h3⟩ := Option.bind_eq_some.mp h2
    exact wsPlusCap_notPN h3

theorem patWeShould_capsOk : capsOk patWeShould := by
  intro prev cs r h
  unfold patWeShould at h
  split at h
  · exact absurd h (by simp)
  · obtain ⟨t, _, ht⟩ := Option.bind_eq_some.mp h
    obtain ⟨t2, h2⟩ := wsPlusThen_some ht
    obtain ⟨t3, _, h3⟩ := Option.bind_eq_some.mp h2
    exact wsPlusCap_notPN h3

theorem patLets_capsOk : capsOk patLets := by
  intro prev cs r h
  unfold patLets at h
  split at h
  · exact absurd h (by simp)
  · obtain ⟨t, _, ht⟩ := Option.bind_eq_some.mp h
    obtain ⟨t2, h2⟩ := apoOpt_some ht
    obtain ⟨t3, _, h3⟩ := Option.bind_eq_some.mp h2
    exact wsPlusCap_notPN h3

theorem patActionLabel_capsOk : capsOk patActionLabel := by
  intro prev cs r h
  unfold patActionLabel at h
  split at h
  · exact absurd h (by simp)
  · obtain ⟨t, _, ht⟩ := Option.bind_eq_some.mp h
    obtain ⟨t2, h2⟩ := wsStarThen_some ht
    split at h2
    · exact wsStarCap_notPN h2
    · exact absurd h2 (by simp)

theorem patWeDecided_capsOk : capsOk patWeDecided := by
  intro prev cs r h
  unfold patWeDecided at h
  split at h
  · exact absurd h (by simp)
  · obtain ⟨t, _, ht⟩ := Option.bind_eq_some.mp h
    obtain ⟨t2, h2⟩ := wsPlusThen_some ht
    obtain ⟨t3, _, h3⟩ := Option.bind_eq_some.mp h2
    exact decidedLoop_notPN _ h3

theorem patDecisionLabel_capsOk : capsOk patDecisionLabel := by
  intro prev cs r h
  unfold patDecisionLabel at h
  split at h
  · exact absurd h (by simp)
  · obtain ⟨t, _, ht⟩ := Option.bind_eq_some.mp h
    obtain ⟨t2, h2⟩ := wsStarThen_some ht
    split at h2
    · exact wsStarCap_notPN h2
    · exact absurd h2 (by simp)

theorem patAgreedTo_capsOk : capsOk patAgreedTo := by
  intro prev cs r h
  unfold patAgreedTo at h
  split at h
  · exact absurd h (by simp)
  · obtain ⟨t, _, ht⟩ := Option.bind_eq_some.mp h
    obtain ⟨t2, h2⟩ := wsPlusThen_some ht
    obtain ⟨t3, _, h3⟩ := Option.bind_eq_some.mp h2
    exact wsPlusCap_notPN h3

theorem patWeAgreeTo_capsOk : capsOk patWeAgreeTo := by
  intro prev cs r h
  unfold patWeAgreeTo at h
  split at h
  · exact absurd h (by simp)
  · obtain ⟨t, _, ht⟩ := Option.bind_eq_some.mp h
    obtain ⟨t2, h2⟩ := wsPlusThen_some ht
    obtain ⟨t3, _, h3⟩ := Option.bind_eq_some.mp h2
    obtain ⟨t4, h4⟩ := wsPlusThen_some h3
    obtain ⟨t5, _, h5⟩ := Option.bind_eq_some.mp h4
    exact wsPlusCap_notPN h5

theorem actionMatchers_capsOk : ∀ p ∈ actionMatchers, capsOk p := by
  intro p hp
  simp only [actionMatchers, List.mem_cons, List.not_mem_nil, or_false] at hp
  rcases hp with rfl | rfl | rfl | rfl | rfl | rfl | rfl
  · exact patIll_capsOk
  · exact patImGoing_capsOk
  · exact patIWill_capsOk
  · exact patYouShould_capsOk
  · exact patWeShould_capsOk
  · exact patLets_capsOk
  · exact patActionLabel_capsOk

theorem decisionMatchers_capsOk : ∀ p ∈ decisionMatchers, capsOk p := by
  intro p hp
  simp only [decisionMatchers, List.mem_cons, List.not_mem_nil, or_false] at hp
  rcases hp with rfl | rfl | rfl | rfl
  · exact patWeDecided_capsOk
  · exact patDecisionLabel_capsOk
  · exact patAgreedTo_capsOk
  · exact patWeAgreeTo_capsOk

theorem collapseWs_chars : ∀ (l : List Char) (c : Char), c ∈ collapseWs l →
    c = ' ' ∨ c ∈ l := by
  intro l
  induction l with
  | nil => intro c h; simp [collapseWs] at h
  | cons a l ih =>
    intro c h
    unfold collapseWs at h
    split at h
    · split at h
      · rename_i heq
        rcases List.mem_cons.mp h with h | h
        · exact Or.inl h
        · rcases ih c (heq ▸ List.mem_cons_of_mem _ h) with h' | h'
          · exact Or.inl h'
          · exact Or.inr (List.mem_cons_of_mem _ h')
      · rcases List.mem_cons.mp h with h | h
        · exact Or.inl h
        · rcases ih c h with h' | h'
          · exact Or.inl h'
          · exact Or.inr (List.mem_cons_of_mem _ h')
    · rcases List.mem_cons.mp h with h | h
      · exact Or.inr (h ▸ List.mem_cons_self _ _)
      · rcases ih c h with h' | h'
        · exact Or.inl h'
        · exact Or.inr (List.mem_cons_of_mem _ h')

theorem pyStrip_mem {l : List Char} {c : Char} (h : c ∈ pyStrip l) : c ∈ l := by
  unfold pyStrip trimRight at h
  rw [List.mem_reverse] at h
  have h2 := (List.dropWhile_sublist isPySpace).mem h
  rw [List.mem_reverse] at h2
  exact (List.dropWhile_sublist isPySpace).mem h2

theorem rstripPunct_mem {l : List Char} {c : Char} (h : c ∈ rstripPunct l) : c ∈ l := by
  unfold rstripPunct at h
  rw [List.mem_reverse] at h
  have h2 := (List.dropWhile_sublist _).mem h
  rw [List.mem_reverse] at h2
  exact h2

theorem clean_task_chars {l : List Char} {c : Char} (h : c ∈ clean_task l) :
    c = ' ' ∨ c ∈ l := by
  unfold clean_task at h
  exact collapseWs_chars l c (pyStrip_mem (rstripPunct_mem h))

theorem tryActionPatterns_notPN :
    ∀ (ps : List (Option Char → List Char → Option (List Char))),
      (∀ p ∈ ps, capsOk p) → ∀ content t, tryActionPatterns ps content = some t →
        ∀ c ∈ t, notPN c = true := by
  intro ps
  induction ps with
  | nil => intro _ content t h; simp [tryActionPatterns] at h
  | cons p ps ih =>
    intro hps content t h
    unfold tryActionPatterns at h
    split at h
    · exact ih (fun q hq => hps q (List.mem_cons_of_mem _ hq)) content t h
    · rename_i cap hs
      split at h
      · exact ih (fun q hq => hps q (List.mem_cons_of_mem _ hq)) content t h
      · intro c hct
        rw [← Option.some.inj h] at hct
        rcases clean_task_chars hct with h' | h'
        · rw [h']
          decide
        · obtain ⟨prev', cs', hm⟩ := reSearch_some hs
          exact hps p (List.mem_cons_self _ _) prev' cs' cap hm c h'

theorem tryDecisionPatterns_notPN :
    ∀ (ps : List (Option Char → List Char → Option (List Char))),
      (∀ p ∈ ps, capsOk p) → ∀ content t, tryDecisionPatterns ps content = some t →
        ∀ c ∈ t, notPN c = true := by
  intro ps
  induction ps with
  | nil => intro _ content t h; simp [tryDecisionPatterns] at h
  | cons p ps ih =>
    intro hps content t h
    unfold tryDecisionPatterns at h
    split at h
    · exact ih (fun q hq => hps q (List.mem_cons_of_mem _ hq)) content t h
    · rename_i cap hs
      split at h
      · exact absurd h (by simp)
      · intro c hct
        rw [← Option.some.inj h] at hct
        rcases clean_task_chars hct with h' | h'
        · rw [h']
          decide
        · obtain ⟨prev', cs', hm⟩ := reSearch_some hs
          exact hps p (List.mem_cons_self _ _) prev' cs' cap hm c h'

theorem actionLine_notPN (spk : Option String) (content : List Char) :
    ((actionLine spk content).all fun it => it.task.data.all notPN) = true := by
  unfold actionLine
  cases htry : tryActionPatterns actionMatchers content with
  | none => simp
  | some task =>
    simp only [List.all_cons, List.all_nil, Bool.and_true]
    rw [List.all_eq_true]
    exact tryActionPatterns_notPN actionMatchers actionMatchers_capsOk content task htry

theorem extractActionsGo_notPN (spk : Option String) (lines : List String) :
    ((extractActionsGo spk lines).all fun it => it.task.data.all notPN) = true := by
  induction lines generalizing spk with
  | nil => simp [extractActionsGo]
  | cons line rest ih =>
    unfold extractActionsGo
    cases hm : speakerMatch line.data with
    | none =>
      rw [List.all_append, actionLine_notPN, ih spk]
      rfl
    | some pr =>
      obtain ⟨nm, c⟩ := pr
      rw [List.all_append, actionLine_notPN, ih (some (String.mk (pyStrip nm)))]
      rfl

theorem extract_decisions_notPN (lines : List String) :
    ((extract_decisions lines).all fun s => s.data.all notPN) = true := by
  induction lines with
  | nil => simp [extract_decisions]
  | cons line rest ih =>
    unfold extract_decisions
    rw [List.all_append]
    cases htry : tryDecisionPatterns decisionMatchers (lineContent line.data) with
    | none =>
      rw [ih]
      rfl
    | some d =>
      simp only [List.all_cons, List.all_nil, Bool.and_true, ih, Bool.and_true]
      rw [List.all_eq_true]
      exact tryDecisionPatterns_notPN decisionMatchers decisionMatchers_capsOk _ d htry

/-- C9: every emitted task and every emitted decision is free of period and
newline characters: the capture groups `[^\.\n]+` stop at the first period
on the line (text after it never enters the item) and task cleaning only
collapses whitespace to spaces. -/
theorem C9_no_period_newline (lines : List String) :
    ((extract_action_items lines).all fun it => it.task.data.all notPN) = true ∧
    ((extract_decisions lines).all fun s => s.data.all notPN) = true :=
  ⟨extractActionsGo_notPN none lines, extract_decisions_notPN lines⟩

theorem takeWhile_all {p : Char → Bool} :
    ∀ l : List Char, (∀ c ∈ l, p c = true) → l.takeWhile p = l := by
  intro l
  induction l with
  | nil => intro _; rfl
  | cons a l ih =>
    intro h
    rw [List.takeWhile_cons, h a (List.mem_cons_self _ _)]
    simp only [if_true]
    rw [ih fun c hc => h c (List.mem_cons_of_mem _ hc)]

theorem takeWhile_append_stop {p : Char → Bool} {x : Char} :
    ∀ (nm rest : List Char), (∀ c ∈ nm, p c = true) → p x = false →
      (nm ++ x :: rest).takeWhile p = nm := by
  intro nm
  induction nm with
  | nil =>
    intro rest _ hx
    simp [List.takeWhile_cons, hx]
  | cons a nm ih =>
    intro rest h hx
    rw [List.cons_append, List.takeWhile_cons, h a (List.mem_cons_self _ _)]
    simp only [if_true]
    rw [ih rest (fun c hc => h c (List.mem_cons_of_mem _ hc)) hx]

theorem dropWhile_eq_drop {p : Char → Bool} :
    ∀ l : List Char, l.dropWhile p = l.drop (l.takeWhile p).length := by
  intro l
  induction l with
  | nil => rfl
  | cons a l ih =>
    rw [List.dropWhile_cons, List.takeWhile_cons]
    by_cases ha : p a
    · simp only [ha, if_true, List.length_cons, List.drop_succ_cons]
      exact ih
    · simp only [ha, if_false, List.length_nil, List.drop_zero]
      simp [ha]

theorem head_dropWhile_false {p : Char → Bool} :
    ∀ (l : List Char) (c : Char), (l.dropWhile p).head? = some c → p c = false := by
  intro l
  induction l with
  | nil => intro c h; simp [List.dropWhile] at h
  | cons a l ih =>
    intro c h
    rw [List.dropWhile_cons] at h
    by_cases ha : p a
    · rw [if_pos ha] at h
      exact ih c h
    · rw [if_neg ha] at h
      rw [← Option.some.inj h]
      exact Bool.not_eq_true _ ▸ ha

theorem dropWhile_idem {p : Char → Bool} (l : List Char) :
    (l.dropWhile p).dropWhile p = l.dropWhile p := by
  cases h : l.dropWhile p with
  | nil => rfl
  | cons a t =>
    have ha : p a = false := head_dropWhile_false l a (by rw [h]; rfl)
    rw [List.dropWhile_cons, ha]
    simp

theorem dotPlusDollar_all (l : List Char) (h1 : l ≠ []) (h2 : ∀ c ∈ l, ¬ c = '\n') :
    dotPlusDollar l = some l := by
  have ht : l.takeWhile (fun c => !(c = '\n')) = l :=
    takeWhile_all l fun c hc => by simp [h2 c hc]
  unfold dotPlusDollar
  cases l with
  | nil => exact absurd rfl h1
  | cons a t =>
    rw [ht]
    simp

theorem isUpper_not_pySpace (c : Char) (h : c.isUpper = true) : isPySpace c = false := by
  by_cases h1 : c = ' '
  · subst h1; exact absurd h (by decide)
  by_cases h2 : c = '\t'
  · subst h2; exact absurd h (by decide)
  by_cases h3 : c = '\n'
  · subst h3; exact absurd h (by decide)
  by_cases h4 : c = '\r'
  · subst h4; exact absurd h (by decide)
  by_cases h5 : c = Char.ofNat 11
  · subst h5; exact absurd h (by decide)
  by_cases h6 : c = Char.ofNat 12
  · subst h6; exact absurd h (by decide)
  unfold isPySpace
  rw [decide_eq_false h1, decide_eq_false h2, decide_eq_false h3, decide_eq_false h4,
    decide_eq_false h5, decide_eq_false h6]
  rfl

theorem colonTail_of_clean (rest : List Char) (h5 : rest.dropWhile isPySpace ≠ [])
    (h6 : '\n' ∉ rest) : colonTail rest = some (rest.dropWhile isPySpace) := by
  have hdp : dotPlusDollar (rest.dropWhile isPySpace) = some (rest.dropWhile isPySpace) := by
    refine dotPlusDollar_all _ h5 fun c hc => ?_
    intro he
    exact h6 (he ▸ (List.dropWhile_sublist isPySpace).mem hc)
  unfold colonTail
  cases hn : (rest.takeWhile isPySpace).length with
  | zero =>
    unfold colonTailLoop
    have heq : rest.dropWhile isPySpace = rest := by
      rw [dropWhile_eq_drop, hn, List.drop_zero]
    rw [heq] at hdp
    rw [heq]
    exact hdp
  | succ j =>
    unfold colonTailLoop
    have hd : rest.drop (j + 1) = rest.dropWhile isPySpace := by
      rw [dropWhile_eq_drop, hn]
    rw [hd, hdp]

theorem pyStrip_dropWhile (l : List Char) :
    pyStrip (l.dropWhile isPySpace) = pyStrip l := by
  unfold pyStrip
  rw [dropWhile_idem]

theorem speakerMatch_shape (c0 : Char) (nm rest : List Char)
    (h1 : c0.isUpper = true) (h2 : nm ≠ []) (h3 : nm.length ≤ 50)
    (h4 : ∀ c ∈ nm, nameChar c = true) (h5 : rest.dropWhile isPySpace ≠ [])
    (h6 : '\n' ∉ rest) :
    speakerMatch (c0 :: nm ++ ':' :: rest) =
      some (c0 :: nm, rest.dropWhile isPySpace) := by
  unfold speakerMatch
  rw [List.cons_append]
  have hws : isPySpace c0 = false := isUpper_not_pySpace c0 h1
  have hdrop : (c0 :: (nm ++ ':' :: rest)).dropWhile isPySpace =
      c0 :: (nm ++ ':' :: rest) := by
    rw [List.dropWhile_cons, hws]
    simp
  rw [hdrop]
  simp only [h1, if_true]
  have htw : (nm ++ ':' :: rest).takeWhile nameChar = nm :=
    takeWhile_append_stop nm rest h4 (by decide)
  rw [htw]
  rw [Nat.min_eq_right h3]
  obtain ⟨j, hj⟩ : ∃ j, nm.length = j + 1 := by
    cases hnm : nm.length with
    | zero => exact absurd (List.length_eq_zero.mp hnm) h2
    | succ j => exact ⟨j, rfl⟩
  rw [hj]
  unfold speakerKLoop
  have hdj : (nm ++ ':' :: rest).drop (j + 1) = ':' :: rest := by
    rw [← hj]
    exact List.drop_left nm (':' :: rest)
  rw [hdj]
  have hns : isPySpace ':' = false := by decide
  have hcol : (':' :: rest).dropWhile isPySpace = ':' :: rest := by
    rw [List.dropWhile_cons, hns]
    simp
  have hct := colonTail_of_clean rest h5 h6
  have htk : (nm ++ ':' :: rest).take (j + 1) = nm := by
    rw [← hj]
    exact List.take_left nm (':' :: rest)
  simp [hcol, hct, htk]

/-- C4, amended: `SPEAKER_RE` accepts a capital letter followed by 1–50
characters from the class `[\w .'-]` (so names of 2–51 characters, not 1–50),
then a colon and a remainder with visible content: such a line is classified
as a speaker line, the current-speaker context becomes the captured (stripped)
name — it is the recorded participant and the assignee source — and the
stripped remainder is the content handed to the downstream per-line
extractors. -/
theorem C4_amended_speaker_shape (c0 : Char) (nm rest : List Char)
    (h1 : c0.isUpper = true) (h2 : nm ≠ []) (h3 : nm.length ≤ 50)
    (h4 : ∀ c ∈ nm, nameChar c = true) (h5 : rest.dropWhile isPySpace ≠ [])
    (h6 : '\n' ∉ rest) :
    speakerMatch (c0 :: nm ++ ':' :: rest) =
      some (c0 :: nm, rest.dropWhile isPySpace) ∧
    extract_participants [ String.mk (c0 :: nm ++ ':' :: rest) ] =
      [ String.mk (pyStrip (c0 :: nm)) ] ∧
    extract_action_items [ String.mk (c0 :: nm ++ ':' :: rest) ] =
      actionLine (some (String.mk (pyStrip (c0 :: nm)))) (pyStrip rest) := by
  have hsm := speakerMatch_shape c0 nm rest h1 h2 h3 h4 h5 h6
  refine ⟨hsm, ?_, ?_⟩
  · show sortedSet (collectParticipants _) = _
    unfold collectParticipants
    rw [show (String.mk (c0 :: nm ++ ':' :: rest)).data = c0 :: nm ++ ':' :: rest from rfl]
    rw [hsm]
    show sortedSet [ String.mk (pyStrip (c0 :: nm)) ] = _
    unfold sortedSet
    rw [List.dedup_cons_of_not_mem (List.not_mem_nil _), List.dedup_nil]
    rfl
  · show extractActionsGo none _ = _
    unfold extractActionsGo
    rw [show (String.mk (c0 :: nm ++ ':' :: rest)).data = c0 :: nm ++ ':' :: rest from rfl]
    rw [hsm]
    show actionLine (some (String.mk (pyStrip (c0 :: nm))))
        (pyStrip (rest.dropWhile isPySpace))
        ++ extractActionsGo (some (String.mk (pyStrip (c0 :: nm)))) [] = _
    rw [pyStrip_dropWhile]
    rw [show extractActionsGo (some (String.mk (pyStrip (c0 :: nm)))) [] = ([] : List ActionItem) from rfl]
    rw [List.append_nil]

/-- C4, witness: the two-character name `"Ab"` with remainder `" hi"`. -/
theorem C4_amended_speaker_shape_witness :
    speakerMatch ('A' :: [ 'b' ] ++ ':' :: (" hi").data) =
      some ('A' :: [ 'b' ], (" hi").data.dropWhile isPySpace) ∧
    extract_participants [ String.mk ('A' :: [ 'b' ] ++ ':' :: (" hi").data) ] =
      [ String.mk (pyStrip ('A' :: [ 'b' ])) ] ∧
    extract_action_items [ String.mk ('A' :: [ 'b' ] ++ ':' :: (" hi").data) ] =
      actionLine (some (String.mk (pyStrip ('A' :: [ 'b' ])))) (pyStrip (" hi").data) :=
  C4_amended_speaker_shape 'A' [ 'b' ] (" hi").data (by decide) (by decide) (by decide)
    (by decide) (by decide) (by decide)

theorem head_not_of_dropWhile_self {p : Char → Bool} {c : Char} {t : List Char}
    (h : List.dropWhile p (c :: t) = c :: t) : p c = false := by
  by_cases hc : p c = true
  · rw [List.dropWhile_cons, if_pos hc] at h
    have h1 : (t.dropWhile p).length ≤ t.length := (List.dropWhile_sublist p).length_le
    have h2 := congrArg List.length h
    simp only [List.length_cons] at h2
    omega
  · exact Bool.not_eq_true _ ▸ hc

theorem trimRight_isPrefix (l : List Char) : trimRight l <+: l := by
  have h1 : (trimRight l).reverse <:+ l.reverse := by
    unfold trimRight
    rw [List.reverse_reverse]
    exact List.dropWhile_suffix isPySpace
  exact List.reverse_suffix.mp h1

theorem dropWhile_trimRight_self {l : List Char} (h : l.dropWhile isPySpace = l) :
    (trimRight l).dropWhile isPySpace = trimRight l := by
  cases hX : l with
  | nil =>
    subst hX
    rfl
  | cons c t =>
    subst hX
    have hc : isPySpace c = false := head_not_of_dropWhile_self h
    obtain ⟨s, hs⟩ := trimRight_isPrefix (c :: t)
    cases htr : trimRight (c :: t) with
    | nil => rfl
    | cons d Y =>
      rw [htr] at hs
      rw [List.cons_append] at hs
      have hd : d = c := (List.cons.inj hs).1
      rw [List.dropWhile_cons, hd, hc]
      simp

theorem trimRight_idem (l : List Char) : trimRight (trimRight l) = trimRight l := by
  unfold trimRight
  rw [List.reverse_reverse, dropWhile_idem]

theorem pyStrip_idem (l : List Char) : pyStrip (pyStrip l) = pyStrip l := by
  unfold pyStrip
  rw [dropWhile_trimRight_self (dropWhile_idem l), trimRight_idem]

theorem dropWhile_all_false {p : Char → Bool} {l : List Char}
    (h : ∀ c ∈ l, p c = false) : l.dropWhile p = l := by
  cases l with
  | nil => rfl
  | cons a t =>
    rw [List.dropWhile_cons, h a (List.mem_cons_self _ _)]
    simp

theorem pyStrip_all_false {l : List Char} (h : ∀ c ∈ l, isPySpace c = false) :
    pyStrip l = l := by
  unfold pyStrip trimRight
  rw [dropWhile_all_false h]
  rw [dropWhile_all_false fun c hc => h c (List.mem_reverse.mp hc)]
  rw [List.reverse_reverse]

theorem isDigit_digitOf (n : Nat) : (digitOf n).isDigit = true := by
  unfold digitOf
  split <;> decide

theorem isPySpace_digitOf (n : Nat) : isPySpace (digitOf n) = false := by
  unfold digitOf
  split <;> decide

theorem digitVal_digitOf {n : Nat} (h : n < 10) : digitVal (digitOf n) = n := by
  interval_cases n <;> decide

theorem formatDate_noWs (y m d : Nat) : ∀ c ∈ formatDate y m d, isPySpace c = false := by
  intro c hc
  simp only [formatDate, pad4, pad2, List.cons_append, List.nil_append,
    List.mem_cons, List.not_mem_nil, or_false] at hc
  rcases hc with rfl | rfl | rfl | rfl | rfl | rfl | rfl | rfl | rfl | rfl
  · exact isPySpace_digitOf _
  · exact isPySpace_digitOf _
  · exact isPySpace_digitOf _
  · exact isPySpace_digitOf _
  · decide
  · exact isPySpace_digitOf _
  · exact isPySpace_digitOf _
  · decide
  · exact isPySpace_digitOf _
  · exact isPySpace_digitOf _

theorem finishDate_some {leftover : List Char} {y m d : Nat} {t : Nat × Nat × Nat}
    (h : finishDate leftover y m d = some t) :
    t = (y, m, d) ∧ validDate y m d = true := by
  unfold finishDate at h
  split at h
  · rename_i hc
    exact ⟨(Option.some.inj h).symm, ((Bool.and_eq_true _ _).mp hc).2⟩
  · exact absurd h (by simp)

theorem parseField2_some {α : Type} {hi : Nat} {cs : List Char}
    {k : Nat → List Char → Option α} {r : α} (h : parseField2 hi cs k = some r) :
    ∃ v rest, k v rest = some r := by
  unfold parseField2 at h
  split at h
  · split at h
    · exact ⟨_, _, h⟩
    · exact absurd h (by simp)
  · exact absurd h (by simp)

theorem parseField1_some {α : Type} {cs : List Char}
    {k : Nat → List Char → Option α} {r : α} (h : parseField1 cs k = some r) :
    ∃ v rest, k v rest = some r := by
  unfold parseField1 at h
  split at h
  · split at h
    · exact ⟨_, _, h⟩
    · exact absurd h (by simp)
  · exact absurd h (by simp)

theorem parseField_some {α : Type} {hi : Nat} {cs : List Char}
    {k : Nat → List Char → Option α} {r : α} (h : parseField hi cs k = some r) :
    ∃ v rest, k v rest = some r := by
  unfold parseField at h
  split at h
  · rename_i r' heq
    obtain ⟨v, rest, hk⟩ := parseField2_some heq
    exact ⟨v, rest, hk.trans (congrArg some (Option.some.inj h))⟩
  · exact parseField1_some h

theorem parse4Y_some {α : Type} {cs : List Char}
    {k : Nat → List Char → Option α} {r : α} (h : parse4Y cs k = some r) :
    ∃ v rest, k v rest = some r := by
  unfold parse4Y at h
  split at h
  · split at h
    · exact ⟨_, _, h⟩
    · exact absurd h (by simp)
  · exact absurd h (by simp)

theorem parse2y_some {α : Type} {cs : List Char}
    {k : Nat → List Char → Option α} {r : α} (h : parse2y cs k = some r) :
    ∃ v rest, k v rest = some r := by
  unfold parse2y at h
  split at h
  · split at h
    · exact ⟨_, _, h⟩
    · exact absurd h (by simp)
  · exact absurd h (by simp)

theorem wsPlus1_some {α : Type} {cs : List Char} {k : List Char → Option α} {r : α}
    (h : wsPlus1 cs k = some r) : ∃ t, k t = some r := by
  unfold wsPlus1 at h
  split at h
  · exact absurd h (by simp)
  · exact ⟨_, h⟩

theorem matchMonth_some {α : Type} {cs : List Char} {k : Nat → List Char → Option α}
    {r : α} :
    ∀ tbl : List (List Char × Nat), matchMonth tbl cs k = some r →
      ∃ v rest, k v rest = some r := by
  intro tbl
  induction tbl with
  | nil => intro h; simp [matchMonth] at h
  | cons e tbl ih =>
    intro h
    unfold matchMonth at h
    split at h
    · rename_i r' heq
      obtain ⟨t, _, hk⟩ := Option.bind_eq_some.mp heq
      exact ⟨_, _, hk.trans (congrArg some (Option.some.inj h))⟩
    · exact ih h

theorem fmtISOParse_valid {cs : List Char} {t : Nat × Nat × Nat}
    (h : fmtISOParse cs = some t) : validDate t.1 t.2.1 t.2.2 = true := by
  unfold fmtISOParse at h
  obtain ⟨y0, r0, h0⟩ := parse4Y_some h
  split at h0
  · split at h0
    · obtain ⟨m0, r3, h1⟩ := parseField_some h0
      split at h1
      · split at h1
        · obtain ⟨d0, r5, h2⟩ := parseField_some h1
          obtain ⟨ht, hv⟩ := finishDate_some h2
          rw [ht]
          exact hv
        · exact absurd h1 (by simp)
      · exact absurd h1 (by simp)
    · exact absurd h0 (by simp)
  · exact absurd h0 (by simp)

theorem fmtSlashYParse_valid {cs : List Char} {t : Nat × Nat × Nat}
    (h : fmtSlashYParse cs = some t) : validDate t.1 t.2.1 t.2.2 = true := by
  unfold fmtSlashYParse at h
  obtain ⟨m0, r0, h0⟩ := parseField_some h
  split at h0
  · split at h0
    · obtain ⟨d0, r3, h1⟩ := parseField_some h0
      split at h1
      · split at h1
        · obtain ⟨y0, r5, h2⟩ := parse4Y_some h1
          obtain ⟨ht, hv⟩ := finishDate_some h2
          rw [ht]
          exact hv
        · exact absurd h1 (by simp)
      · exact absurd h1 (by simp)
    · exact absurd h0 (by simp)
  · exact absurd h0 (by simp)

theorem fmtSlashyParse_valid {cs : List Char} {t : Nat × Nat × Nat}
    (h : fmtSlashyParse cs = some t) : validDate t.1 t.2.1 t.2.2 = true := by
  unfold fmtSlashyParse at h
  obtain ⟨m0, r0, h0⟩ := parseField_some h
  split at h0
  · split at h0
    · obtain ⟨d0, r3, h1⟩ := parseField_some h0
      split at h1
      · split at h1
        · obtain ⟨y0, r5, h2⟩ := parse2y_some h1
          obtain ⟨ht, hv⟩ := finishDate_some h2
          rw [ht]
          exact hv
        · exact absurd h1 (by simp)
      · exact absurd h1 (by simp)
    · exact absurd h0 (by simp)
  · exact absurd h0 (by simp)

theorem fmtMonthParse_valid {tbl : List (List Char × Nat)} {cs : List Char}
    {t : Nat × Nat × Nat} (h : fmtMonthParse tbl cs = some t) :
    validDate t.1 t.2.1 t.2.2 = true := by
  unfold fmtMonthParse at h
  obtain ⟨m0, r0, h0⟩ := matchMonth_some tbl h
  obtain ⟨r2, h1⟩ := wsPlus1_some h0
  obtain ⟨d0, r3, h2⟩ := parseField_some h1
  split at h2
  · split at h2
    · obtain ⟨r5, h3⟩ := wsPlus1_some h2
      obtain ⟨y0, r6, h4⟩ := parse4Y_some h3
      obtain ⟨ht, hv⟩ := finishDate_some h4
      rw [ht]
      exact hv
    · exact absurd h2 (by simp)
  · exact absurd h2 (by simp)

theorem tryParseDate_valid {cs : List Char} {t : Nat × Nat × Nat}
    (h : tryParseDate cs = some t) : validDate t.1 t.2.1 t.2.2 = true := by
  unfold tryParseDate at h
  split at h
  · rename_i heq
    exact (Option.some.inj h) ▸ fmtISOParse_valid heq
  · split at h
    · rename_i heq
      exact (Option.some.inj h) ▸ fmtSlashYParse_valid heq
    · split at h
      · rename_i heq
        exact (Option.some.inj h) ▸ fmtSlashyParse_valid heq
      · split at h
        · rename_i heq
          exact (Option.some.inj h) ▸ fmtMonthParse_valid heq
        · exact fmtMonthParse_valid h

theorem daysInMonth_le (y m : Nat) : daysInMonth y m ≤ 31 := by
  unfold daysInMonth
  split_ifs <;> omega

theorem validDate_bounds {y m d : Nat} (h : validDate y m d = true) :
    1 ≤ y ∧ y ≤ 9999 ∧ 1 ≤ m ∧ m ≤ 12 ∧ 1 ≤ d ∧ d ≤ 31 := by
  unfold validDate at h
  simp only [Bool.and_eq_true, decide_eq_true_eq] at h
  have := daysInMonth_le y m
  omega

theorem fmtISO_reparse {y m d : Nat} (hv : validDate y m d = true) :
    fmtISOParse (formatDate y m d) = some (y, m, d) := by
  obtain ⟨hy1, hy2, hm1, hm2, hd1, hd2⟩ := validDate_bounds hv
  have e : formatDate y m d =
      digitOf (y / 1000 % 10) :: digitOf (y / 100 % 10) :: digitOf (y / 10 % 10) ::
        digitOf (y % 10) :: '-' :: digitOf (m / 10 % 10) :: digitOf (m % 10) :: '-' ::
          digitOf (d / 10 % 10) :: digitOf (d % 10) :: [] := by
    simp [formatDate, pad4, pad2]
  rw [e]
  unfold fmtISOParse parse4Y
  simp only [isDigit_digitOf, Bool.and_self, if_true]
  rw [digitVal_digitOf (Nat.mod_lt _ (by omega)), digitVal_digitOf (Nat.mod_lt _ (by omega)),
    digitVal_digitOf (Nat.mod_lt _ (by omega)), digitVal_digitOf (Nat.mod_lt _ (by omega))]
  have hyv : 1000 * (y / 1000 % 10) + 100 * (y / 100 % 10) + 10 * (y / 10 % 10) + y % 10 = y := by
    omega
  rw [hyv]
  unfold parseField parseField2
  simp only [isDigit_digitOf, Bool.true_and]
  rw [digitVal_digitOf (Nat.mod_lt _ (by omega)), digitVal_digitOf (Nat.mod_lt _ (by omega))]
  have hmv : 10 * (m / 10 % 10) + m % 10 = m := by omega
  rw [hmv]
  simp only [decide_eq_true hm1, decide_eq_true hm2, Bool.and_self, Bool.true_and, if_true]
  rw [digitVal_digitOf (Nat.mod_lt _ (by omega)), digitVal_digitOf (Nat.mod_lt _ (by omega))]
  have hdv : 10 * (d / 10 % 10) + d % 10 = d := by omega
  rw [hdv]
  simp only [decide_eq_true hd1, decide_eq_true hd2, Bool.and_self, Bool.true_and, if_true]
  unfold finishDate
  simp only [List.isEmpty_nil, hv, Bool.and_self, if_true]

theorem tryParseDate_formatDate {y m d : Nat} (hv : validDate y m d = true) :
    tryParseDate (formatDate y m d) = some (y, m, d) := by
  unfold tryParseDate
  rw [fmtISO_reparse hv]

/-- C6, amended: date normalization maps every input that parses in one of
the five supported formats (after stripping) to the canonical zero-padded
`YYYY-MM-DD` rendering of the parsed date; any other input is returned
STRIPPED but otherwise unchanged (normalization is total — never raises);
and the function is idempotent. -/
theorem C6_amended_normalization (s : String) :
    (∀ y m d, tryParseDate (pyStrip s.data) = some (y, m, d) →
      normalize_date s = String.mk (formatDate y m d)) ∧
    (tryParseDate (pyStrip s.data) = none →
      normalize_date s = String.mk (pyStrip s.data)) ∧
    normalize_date (normalize_date s) = normalize_date s := by
  refine ⟨?_, ?_, ?_⟩
  · intro y m d h
    simp only [normalize_date, h]
  · intro h
    simp only [normalize_date, h]
  · cases h : tryParseDate (pyStrip s.data) with
    | none =>
      have e1 : normalize_date s = String.mk (pyStrip s.data) := by
        simp only [normalize_date, h]
      rw [e1]
      simp only [normalize_date]
      rw [pyStrip_idem, h]
    | some t =>
      obtain ⟨y, m, d⟩ := t
      have hv : validDate y m d = true := tryParseDate_valid h
      have e1 : normalize_date s = String.mk (formatDate y m d) := by
        simp only [normalize_date, h]
      rw [e1]
      simp only [normalize_date]
      rw [pyStrip_all_false (formatDate_noWs y m d)]
      rw [tryParseDate_formatDate hv]

/-- C6, witness: `"3/14/25"` parses via `%m/%d/%y` and normalizes to the
canonical form of March 14, 2025. -/
theorem C6_amended_normalization_witness :
    normalize_date ("3/14/25") = String.mk (formatDate 2025 3 14) :=
  (C6_amended_normalization ("3/14/25")).1 2025 3 14 (by decide)
